import Mathlib

/-!
# Huobi spot websocket client (huobi/HuobiSpot_Ws.go)

A shallow embedding of `SpotWs`: callback registration, the four Subscribe
operations, `parseTrade` and the inbound frame handler `handle`.

Effects are made explicit.  A call returns the client state after the call, the
list of observable events it produced (callback invocations, log lines) and an
`Outcome`, which is either a normal return (with Go's `error` as an `Option`) or a
runtime panic.  The connection object records what was handed to it.

What the file under study takes from elsewhere (the JSON decoders, the period
table, the channel-name and depth parsers) is a field of `Env`.
-/

set_option maxRecDepth 100000

namespace Huobi

/-! ## Go values -/

/-- One byte. -/
abbrev Byte := Fin 256

/-- Go strings and byte slices are byte sequences. -/
abbrev GoString := List Byte

/-- Bytes of an ASCII literal. -/
def lit (s : String) : GoString := s.toList.map (fun c => Fin.ofNat c.toNat)

/-- A float64 value, kept as its IEEE-754 bit pattern: the program only copies floats. -/
structure Float64 where
  bits : Nat
deriving DecidableEq, Repr

/-- A Go error value made by errors.New or returned by a decoder. -/
structure GoError where
  msg : String
deriving DecidableEq, Repr

deriving instance DecidableEq for Except

/-- A time.Time instant, as nanoseconds after the Unix epoch. -/
structure Time where
  unixNano : Int
deriving DecidableEq, Repr

/-- Two's complement wrap-around of int64 arithmetic. -/
def wrapInt64 (x : Int) : Int := (x + 2 ^ 63) % 2 ^ 64 - 2 ^ 63

/-- Conversion uint64(x) of an int64. -/
def toUint64 (x : Int) : Nat := (x % 2 ^ 64).toNat

/-- Constant time.Millisecond, a Duration in nanoseconds. -/
def Millisecond : Int := 1000000

/-- Library time.Unix(sec, nsec): the instant sec seconds and nsec nanoseconds after the epoch. -/
def timeUnix (sec nsec : Int) : Time := ⟨sec * 1000000000 + nsec⟩

/-! ## Go standard library: bytes and strings -/

/-- Library bytes.Index / strings.Index: offset of the first occurrence of `sep`, `none` for -1. -/
def Index : List Byte → List Byte → Option Nat
  | [], sep => if sep.isEmpty then some 0 else none
  | b :: rest, sep =>
    if sep.isPrefixOf (b :: rest) then some 0 else (Index rest sep).map (· + 1)

/-- Library bytes.Contains / strings.Contains: `Index(s, sub) != -1`. -/
def Contains (s sub : List Byte) : Bool := (Index s sub).isSome

/-- Library strings.HasSuffix: `len(s) >= len(suffix) && s[len(s)-len(suffix):] == suffix`. -/
def HasSuffix (s suffix : GoString) : Bool :=
  decide (suffix.length ≤ s.length) && decide (s.drop (s.length - suffix.length) = suffix)

/-- Scan of bytes.ReplaceAll: `skip` bytes of a matched `old` are still to be passed over. -/
def replaceScan (old new : List Byte) : Nat → List Byte → List Byte
  | _, [] => []
  | skip + 1, _ :: rest => replaceScan old new skip rest
  | 0, b :: rest =>
    if old.isPrefixOf (b :: rest) then new ++ replaceScan old new (old.length - 1) rest
    else b :: replaceScan old new 0 rest

/-- Library bytes.ReplaceAll for a non-empty `old`: the non-overlapping occurrences of `old`,
found from the left, are replaced by `new`.  (An empty `old` matches between UTF-8 sequences
in the library; the program never passes one, and the slice is returned as it is here.) -/
def ReplaceAll (s old new : List Byte) : List Byte :=
  if old.isEmpty then s else replaceScan old new 0 s

/-- Scan of strings.Split: `cur` is the segment being collected. -/
def splitScan (sep : List Byte) : Nat → List Byte → List Byte → List (List Byte)
  | _, cur, [] => [cur]
  | skip + 1, cur, _ :: rest => splitScan sep skip cur rest
  | 0, cur, b :: rest =>
    if sep.isPrefixOf (b :: rest) then cur :: splitScan sep (sep.length - 1) [] rest
    else splitScan sep 0 (cur ++ [b]) rest

/-- Library strings.Split for a non-empty separator: the substrings between the
non-overlapping occurrences of `sep`, found from the left.  (An empty `sep` explodes the
string into UTF-8 sequences in the library; the program never passes one.) -/
def Split (s sep : GoString) : List GoString :=
  if sep.isEmpty then s.map (fun b => [b]) else splitScan sep 0 [] s

/-! ## Types of the goex package used by the handler -/

/-- Modelled from the spec: goex.CurrencyPair, the instrument pair, two currency symbols. -/
structure CurrencyPair where
  CurrencyA : GoString
  CurrencyB : GoString
deriving DecidableEq, Repr

/-- Type goex.KlinePeriod, an int. -/
abbrev KlinePeriod := Int

/-- Type goex.TradeSide, an int. -/
abbrev TradeSide := Int

/-- Modelled from the spec: one depth level (price, size). -/
structure DepthRecord where
  Price : Float64
  Amount : Float64
deriving DecidableEq, Repr

/-- Modelled from the spec: goex.Depth, the order-book event; `handle` sets Pair and UTime. -/
structure Depth where
  Pair : CurrencyPair
  UTime : Time
  AskList : List DepthRecord
  BidList : List DepthRecord
deriving DecidableEq, Repr

/-- Type goex.Ticker, with the fields `handle` fills in.  Date is a uint64. -/
structure Ticker where
  Pair : CurrencyPair
  Last : Float64
  High : Float64
  Low : Float64
  Vol : Float64
  Date : Nat
deriving DecidableEq, Repr

/-- Type goex.Trade, with the fields `parseTrade` and `handle` fill in.  Date is an int64.
`Side` is the Go field `Type`, a reserved word here. -/
structure Trade where
  Tid : Int
  Side : TradeSide
  Amount : Float64
  Price : Float64
  Date : Int
  Pair : CurrencyPair
deriving DecidableEq, Repr

/-- Type goex.Candle, with the fields `handle` fills in.  Timestamp is an int64. -/
structure Candle where
  Pair : CurrencyPair
  Period : KlinePeriod
  Timestamp : Int
  Open : Float64
  Close : Float64
  High : Float64
  Low : Float64
  Count : Float64
  Vol : Float64
deriving DecidableEq, Repr

/-! ## Wire types of the huobi package -/

/-- The generic inbound envelope WsResponse: channel name, server timestamp (ms), payload. -/
structure WsResponse where
  Ch : GoString
  Ts : Int
  Tick : List Byte
deriving DecidableEq, Repr

/-- Modelled from the spec: DepthResponse, the decoded depth levels. -/
structure DepthResponse where
  Bids : List (List Float64)
  Asks : List (List Float64)
deriving DecidableEq, Repr

/-- The decoded candle payload KlineResponse, with the fields `handle` reads. -/
structure KlineResponse where
  ID : Int
  Open : Float64
  Close : Float64
  High : Float64
  Low : Float64
  Count : Float64
  Vol : Float64
deriving DecidableEq, Repr

/-- The decoded ticker payload DetailResponse, with the fields `handle` reads. -/
structure DetailResponse where
  Close : Float64
  High : Float64
  Low : Float64
  Amount : Float64
deriving DecidableEq, Repr

/-- One element of SpotTradeResponse.Data. -/
structure SpotTradeData where
  TradeId : Int
  Amount : Float64
  Price : Float64
  Direction : GoString
  Ts : Int
deriving DecidableEq, Repr

/-- The decoded trade payload SpotTradeResponse. -/
structure SpotTradeResponse where
  Id : Int
  Ts : Int
  Data : List SpotTradeData
deriving DecidableEq, Repr

/-! ## What the file takes from the rest of the package -/

/-- The collaborators of HuobiSpot_Ws.go that live in other files. -/
structure Env where
  -- The map `_INERNAL_KLINE_PERIOD_CONVERTER` as the entries (period, token) in the order a
  -- range loop visits them.  Go leaves that order unspecified.
  INERNAL_KLINE_PERIOD_CONVERTER : List (Int × GoString)
  -- The constant goex.KLINE_PERIOD_1MIN.
  KLINE_PERIOD_1MIN : Int
  -- Decoder json.Unmarshal into a WsResponse.
  unmarshalWsResponse : List Byte → Except GoError WsResponse
  -- Decoder json.Unmarshal into a DepthResponse.
  unmarshalDepthResponse : List Byte → Except GoError DepthResponse
  -- Decoder json.Unmarshal into a KlineResponse.
  unmarshalKlineResponse : List Byte → Except GoError KlineResponse
  -- Decoder json.Unmarshal into a SpotTradeResponse.
  unmarshalSpotTradeResponse : List Byte → Except GoError SpotTradeResponse
  -- Decoder json.Unmarshal into a DetailResponse.
  unmarshalDetailResponse : List Byte → Except GoError DetailResponse
  -- The channel-name parser of the package.
  ParseCurrencyPairFromSpotWsCh : GoString → CurrencyPair
  -- The depth parser of the package.
  ParseDepthFromResponse : DepthResponse → Depth
  -- The trade direction adapter of goex.
  AdaptTradeSide : GoString → TradeSide
  -- The expression `pair.ToLower().ToSymbol("")`.
  lowerSymbol : CurrencyPair → GoString

/-- Map lookup `m[key]` with the comma-ok form. -/
def mapLookup (m : List (Int × GoString)) (key : Int) : Option GoString :=
  (m.find? (fun e => e.1 == key)).map Prod.snd

/-! ## The client -/

/-- The frame built by a Subscribe operation: the map with the keys "id" and "sub". -/
structure SubFrame where
  id : GoString
  sub : GoString
deriving DecidableEq, Repr

/-- Modelled from the spec: the connection WsConn of the transport collaborator, with what the
client handed to it: the subscribe frames, and the raw messages, each in call order. -/
structure WsConn where
  WsUrl : GoString
  subs : List SubFrame
  sent : List (List Byte)
deriving DecidableEq, Repr

/-- Modelled from the spec: WsConn.SendMessage sends the frame verbatim on the connection. -/
def WsConn.SendMessage (c : WsConn) (msg : List Byte) : WsConn :=
  { c with sent := c.sent ++ [msg] }

/-- Modelled from the spec: WsConn.Subscribe sends a subscribe control frame and records it
for replay; it returns no error. -/
def WsConn.Subscribe (c : WsConn) (sub : SubFrame) : WsConn × Option GoError :=
  ({ c with subs := c.subs ++ [sub] }, none)

/-- A registered function value, by identity. -/
abbrev Fn := Nat

/-- The struct SpotWs.  `onceDone` is the state of the embedded sync.Once; `builds` counts the
calls of WsBuilder.Build made so far. -/
structure SpotWs where
  onceDone : Bool
  builds : Nat
  wsConn : Option WsConn
  candleCallback : Option Fn
  tickerCallback : Option Fn
  depthCallback : Option Fn
  tradeCallback : Option Fn
deriving DecidableEq, Repr

/-- The endpoint configured by NewSpotWs. -/
def wsUrl : GoString := lit "wss://api.huobi.pro/ws"

/-- Modelled from the spec: WsBuilder.Build establishes the transport and returns a fresh
connection to the configured endpoint. -/
def Build : WsConn := { WsUrl := wsUrl, subs := [], sent := [] }

/-- Constructor NewSpotWs: no connection, no callback. -/
def NewSpotWs : SpotWs :=
  { onceDone := false, builds := 0, wsConn := none, candleCallback := none,
    tickerCallback := none, depthCallback := none, tradeCallback := none }

/-- Method DepthCallback. -/
def DepthCallback (ws : SpotWs) (call : Option Fn) : SpotWs := { ws with depthCallback := call }

/-- Method TickerCallback. -/
def TickerCallback (ws : SpotWs) (call : Option Fn) : SpotWs := { ws with tickerCallback := call }

/-- Method TradeCallback. -/
def TradeCallback (ws : SpotWs) (call : Option Fn) : SpotWs := { ws with tradeCallback := call }

/-- Method CandleCallback. -/
def CandleCallback (ws : SpotWs) (call : Option Fn) : SpotWs := { ws with candleCallback := call }

/-- A runtime panic. -/
inductive Panic where
  | nilDereference
  | indexOutOfRange (index len : Nat)
deriving DecidableEq, Repr

/-- How a call ends: a normal return with Go's error value (`none` is nil), or a panic. -/
inductive Outcome where
  | ret (err : Option GoError)
  | panic (p : Panic)
deriving DecidableEq, Repr

/-- What a call does that the caller can observe, apart from the connection. -/
inductive Event where
  | depthCall (f : Fn) (d : Depth)
  | candleCall (f : Fn) (c : Candle)
  | tradeCall (f : Fn) (t : Trade)
  | tickerCall (f : Fn) (t : Ticker)
  | println (e : GoError)
  | logErrorf (url : GoString) (msg : List Byte)
deriving DecidableEq, Repr

/-- State after a call, the events of the call in order, and how the call ended. -/
structure Result where
  ws : SpotWs
  events : List Event
  out : Outcome
deriving DecidableEq, Repr

/-- Method connectWs: the body runs on the first call only (sync.Once). -/
def connectWs (ws : SpotWs) : SpotWs :=
  if ws.onceDone then ws
  else { ws with onceDone := true, builds := ws.builds + 1, wsConn := some Build }

/-- Method subscribe. -/
def subscribe (ws : SpotWs) (sub : SubFrame) : Result :=
  let ws1 := connectWs ws
  match ws1.wsConn with
  | none => ⟨ws1, [], .panic .nilDereference⟩
  | some c =>
    let r := c.Subscribe sub
    ⟨{ ws1 with wsConn := some r.1 }, [], .ret r.2⟩

/-- Method SubscribeDepth. -/
def SubscribeDepth (env : Env) (ws : SpotWs) (pair : CurrencyPair) : Result :=
  if ws.depthCallback.isNone then
    ⟨ws, [], .ret (some ⟨"please set depth callback func"⟩)⟩
  else
    subscribe ws
      { id := lit "spot.depth",
        sub := lit "market." ++ env.lowerSymbol pair ++ lit ".mbp.refresh.20" }

/-- Method SubscribeTicker. -/
def SubscribeTicker (env : Env) (ws : SpotWs) (pair : CurrencyPair) : Result :=
  if ws.tickerCallback.isNone then
    ⟨ws, [], .ret (some ⟨"please set ticker call back func"⟩)⟩
  else
    subscribe ws
      { id := lit "spot.ticker",
        sub := lit "market." ++ env.lowerSymbol pair ++ lit ".detail" }

/-- Method SubscribeTrade.  The guard reads tickerCallback, as the source does. -/
def SubscribeTrade (env : Env) (ws : SpotWs) (pair : CurrencyPair) : Result :=
  if ws.tickerCallback.isNone then
    ⟨ws, [], .ret (some ⟨"please set ticker call back func"⟩)⟩
  else
    subscribe ws
      { id := lit "spot.trade",
        sub := lit "market." ++ env.lowerSymbol pair ++ lit ".trade.detail" }

/-- Method SubscribeCandle. -/
def SubscribeCandle (env : Env) (ws : SpotWs) (pair : CurrencyPair) (period : KlinePeriod) :
    Result :=
  if ws.candleCallback.isNone then
    ⟨ws, [], .ret (some ⟨"please set candle call back func"⟩)⟩
  else
    let periodS :=
      match mapLookup env.INERNAL_KLINE_PERIOD_CONVERTER period with
      | some t => t
      | none => lit "1min"
    subscribe ws
      { id := lit "spot.candle",
        sub := lit "market." ++ env.lowerSymbol pair ++ lit ".kline." ++ periodS }

/-- Method parseTrade. -/
def parseTrade (env : Env) (r : SpotTradeResponse) : List Trade :=
  r.Data.map (fun v =>
    { Tid := v.TradeId, Price := v.Price, Amount := v.Amount,
      Side := env.AdaptTradeSide v.Direction, Date := v.Ts,
      Pair := ⟨[], []⟩ })

/-- The range loop of handle over the period table: the last visited entry whose token is
`periodS` wins, KLINE_PERIOD_1MIN when none matches. -/
def reversePeriod (env : Env) (periodS : GoString) : Int :=
  env.INERNAL_KLINE_PERIOD_CONVERTER.foldl
    (fun period e => if periodS = e.2 then e.1 else period) env.KLINE_PERIOD_1MIN

/-- The range loop of handle over the parsed trades: each trade gets the pair and is passed to
the trade callback; calling a nil callback panics. -/
def tradeLoop (cb : Option Fn) (currencyPair : CurrencyPair) : List Trade → List Event × Outcome
  | [] => ([], .ret none)
  | v :: rest =>
    match cb with
    | none => ([], .panic .nilDereference)
    | some f =>
      let r := tradeLoop cb currencyPair rest
      (Event.tradeCall f { v with Pair := currencyPair } :: r.1, r.2)

/-- Method handle, the protocol handler given to the connection for every inbound frame. -/
def handle (env : Env) (ws : SpotWs) (msg : List Byte) : Result :=
  if Contains msg (lit "ping") then
    let pong := ReplaceAll msg (lit "ping") (lit "pong")
    match ws.wsConn with
    | none => ⟨ws, [], .panic .nilDereference⟩
    | some c => ⟨{ ws with wsConn := some (c.SendMessage pong) }, [], .ret none⟩
  else
    match env.unmarshalWsResponse msg with
    | .error err => ⟨ws, [], .ret (some err)⟩
    | .ok resp =>
      let currencyPair := env.ParseCurrencyPairFromSpotWsCh resp.Ch
      if Contains resp.Ch (lit "mbp.refresh") then
        match env.unmarshalDepthResponse resp.Tick with
        | .error err => ⟨ws, [], .ret (some err)⟩
        | .ok depthResp =>
          let dep := env.ParseDepthFromResponse depthResp
          let dep := { dep with Pair := currencyPair }
          let dep := { dep with UTime := timeUnix 0 (wrapInt64 (resp.Ts * Millisecond)) }
          match ws.depthCallback with
          | none => ⟨ws, [], .panic .nilDereference⟩
          | some f => ⟨ws, [.depthCall f dep], .ret none⟩
      else if Contains resp.Ch (lit "kline") then
        match (Split resp.Ch (lit "."))[3]? with
        | none => ⟨ws, [], .panic (.indexOutOfRange 3 (Split resp.Ch (lit ".")).length)⟩
        | some periodS =>
          match env.unmarshalKlineResponse resp.Tick with
          | .error err => ⟨ws, [], .ret (some err)⟩
          | .ok klineResp =>
            let period := reversePeriod env periodS
            match ws.candleCallback with
            | none => ⟨ws, [], .panic .nilDereference⟩
            | some f =>
              ⟨ws, [.candleCall f
                { Pair := currencyPair, Period := period, Timestamp := klineResp.ID,
                  Open := klineResp.Open, Close := klineResp.Close, High := klineResp.High,
                  Low := klineResp.Low, Count := klineResp.Count, Vol := klineResp.Vol }],
               .ret none⟩
      else if HasSuffix resp.Ch (lit ".trade.detail") then
        match env.unmarshalSpotTradeResponse resp.Tick with
        | .error err => ⟨ws, [.println err], .ret (some err)⟩
        | .ok tradeResp =>
          let trades := parseTrade env tradeResp
          let r := tradeLoop ws.tradeCallback currencyPair trades
          ⟨ws, r.1, r.2⟩
      else if HasSuffix resp.Ch (lit ".detail") then
        match env.unmarshalDetailResponse resp.Tick with
        | .error err => ⟨ws, [], .ret (some err)⟩
        | .ok tickerResp =>
          match ws.tickerCallback with
          | none => ⟨ws, [], .panic .nilDereference⟩
          | some f =>
            ⟨ws, [.tickerCall f
              { Pair := currencyPair, Last := tickerResp.Close, High := tickerResp.High,
                Low := tickerResp.Low, Vol := tickerResp.Amount, Date := toUint64 resp.Ts }],
             .ret none⟩
      else
        match ws.wsConn with
        | none => ⟨ws, [], .panic .nilDereference⟩
        | some c => ⟨ws, [.logErrorf c.WsUrl msg], .ret none⟩

/-! ## The classification chain of handle -/

/-- The kinds of frame the check chain of handle tells apart. -/
inductive Kind where
  | Depth
  | Candle
  | Trade
  | Ticker
  | Unknown
deriving DecidableEq, Repr

/-- The check chain of handle on the channel name, in source order. -/
def classify (ch : GoString) : Kind :=
  if Contains ch (lit "mbp.refresh") then .Depth
  else if Contains ch (lit "kline") then .Candle
  else if HasSuffix ch (lit ".trade.detail") then .Trade
  else if HasSuffix ch (lit ".detail") then .Ticker
  else .Unknown

/-- The kind of callback an event invokes, `none` for a log line. -/
def Event.callbackKind : Event → Option Kind
  | .depthCall _ _ => some .Depth
  | .candleCall _ _ => some .Candle
  | .tradeCall _ _ => some .Trade
  | .tickerCall _ _ => some .Ticker
  | .println _ => none
  | .logErrorf _ _ => none

/-! ## Sample collaborators, for evaluating the client on concrete frames -/

/-- A decoder given by its graph on finitely many inputs; any other input is a syntax error. -/
def decodeBy {α : Type} (graph : List (List Byte × α)) (data : List Byte) : Except GoError α :=
  match graph.find? (fun e => e.1 == data) with
  | some e => .ok e.2
  | none => .error ⟨"invalid character"⟩

/-- A sample period table with Huobi's tokens. -/
def sampleTable : List (Int × GoString) :=
  [(1, lit "1min"), (3, lit "5min"), (4, lit "15min"), (5, lit "30min"), (6, lit "60min"),
   (14, lit "1day"), (16, lit "1week"), (17, lit "1mon"), (18, lit "1year")]

/-- A sample channel-name parser: the 2nd dot-separated segment, cut before a `usdt` suffix. -/
def sampleParsePair (ch : GoString) : CurrencyPair :=
  let sym := ((Split ch (lit "."))[1]?).getD []
  if HasSuffix sym (lit "usdt") then ⟨sym.take (sym.length - 4), lit "usdt"⟩ else ⟨sym, []⟩

/-- A sample environment: the decoders are given by their graphs. -/
def sampleEnv (envelopes : List (List Byte × WsResponse))
    (depths : List (List Byte × DepthResponse)) (klines : List (List Byte × KlineResponse))
    (trades : List (List Byte × SpotTradeResponse))
    (details : List (List Byte × DetailResponse)) : Env :=
  { INERNAL_KLINE_PERIOD_CONVERTER := sampleTable
    KLINE_PERIOD_1MIN := 1
    unmarshalWsResponse := decodeBy envelopes
    unmarshalDepthResponse := decodeBy depths
    unmarshalKlineResponse := decodeBy klines
    unmarshalSpotTradeResponse := decodeBy trades
    unmarshalDetailResponse := decodeBy details
    ParseCurrencyPairFromSpotWsCh := sampleParsePair
    ParseDepthFromResponse := fun _ => ⟨⟨[], []⟩, ⟨0⟩, [], []⟩
    AdaptTradeSide := fun d => if d = lit "buy" then 1 else 2
    lowerSymbol := fun p => p.CurrencyA ++ p.CurrencyB }

/-- A client with the connection built and the four callbacks registered. -/
def readyWs : SpotWs :=
  { onceDone := true, builds := 1, wsConn := some Build, candleCallback := some 1,
    tickerCallback := some 2, depthCallback := some 3, tradeCallback := some 4 }

/-- The bytes of the envelope with the given channel name, timestamp digits and payload. -/
def envelopeBytes (ch ts tick : List Byte) : List Byte :=
  lit "\x7b\"ch\":\"" ++ ch ++ lit "\",\"ts\":" ++ ts ++ lit ",\"tick\":" ++ tick ++ lit "\x7d"

/-- The trade payload of the end-to-end example: one print. -/
def sampleTradeTick : List Byte :=
  lit ("\x7b\"data\":[\x7b\"tradeId\":102051183444,\"amount\":2.3227,\"price\":1309.43," ++
       "\"direction\":\"buy\",\"ts\":1611162033202\x7d]\x7d")

/-- What json.Unmarshal makes of `sampleTradeTick` as a SpotTradeResponse; the floats are the
doubles nearest to 2.3227 and 1309.43. -/
def sampleTradeResponse : SpotTradeResponse :=
  { Id := 0, Ts := 0,
    Data := [{ TradeId := 102051183444, Amount := ⟨4612412674227264134⟩,
               Price := ⟨4653473749489386783⟩, Direction := lit "buy", Ts := 1611162033202 }] }

/-- What json.Unmarshal makes of `sampleTradeTick` as a KlineResponse: no field of it is
present, all stay zero. -/
def zeroKlineResponse : KlineResponse :=
  { ID := 0, Open := ⟨0⟩, Close := ⟨0⟩, High := ⟨0⟩, Low := ⟨0⟩, Count := ⟨0⟩, Vol := ⟨0⟩ }

/-- The sample environment that decodes the envelope (ch, ts, sampleTradeTick) and its payload
as each of the payload types. -/
def envFor (ch : GoString) (tsDigits : List Byte) (ts : Int) : Env :=
  sampleEnv [(envelopeBytes ch tsDigits sampleTradeTick, ⟨ch, ts, sampleTradeTick⟩)]
    [(sampleTradeTick, ⟨[], []⟩)] [(sampleTradeTick, zeroKlineResponse)]
    [(sampleTradeTick, sampleTradeResponse)] [(sampleTradeTick, ⟨⟨0⟩, ⟨0⟩, ⟨0⟩, ⟨0⟩⟩)]

/-- A candle payload: id, open, close, low, high, amount, vol. -/
def sampleKlineTick : List Byte :=
  lit ("\x7b\"id\":1611162000,\"open\":1305.25,\"close\":1309.43,\"low\":1300.5," ++
       "\"high\":1310.0,\"amount\":10.5,\"vol\":10.5\x7d")

/-- What json.Unmarshal makes of `sampleKlineTick` as a KlineResponse. -/
def sampleKlineResponse : KlineResponse :=
  { ID := 1611162000, Open := ⟨4653455365654970368⟩, Close := ⟨4653473749489386783⟩,
    High := ⟨4653476256375898112⟩, Low := ⟨4653434474934042624⟩, Count := ⟨0⟩,
    Vol := ⟨4622100592565682176⟩ }

/-- The sample environment that decodes the candle envelope (ch, 1611162033214,
sampleKlineTick) and its payload. -/
def candleEnv (ch : GoString) : Env :=
  sampleEnv [(envelopeBytes ch (lit "1611162033214") sampleKlineTick,
      ⟨ch, 1611162033214, sampleKlineTick⟩)]
    [] [(sampleKlineTick, sampleKlineResponse)] [] []

/-- Spec wording of the heartbeat reply: `reply` is `msg` with every occurrence of `ping`
replaced by `pong` and every other byte unchanged. -/
def IsPongReply (msg reply : List Byte) : Prop :=
  reply.length = msg.length ∧
  (∀ i, lit "ping" <+: msg.drop i → ∀ j, j < 4 → reply[i + j]? = (lit "pong")[j]?) ∧
  (∀ k, (∀ i, i ≤ k → k < i + 4 → ¬ lit "ping" <+: msg.drop i) → reply[k]? = msg[k]?)

/-! ## Sequences of calls on one client -/

/-- The map literal SubscribeDepth hands to subscribe. -/
def depthFrame (env : Env) (pair : CurrencyPair) : SubFrame :=
  { id := lit "spot.depth",
    sub := lit "market." ++ env.lowerSymbol pair ++ lit ".mbp.refresh.20" }

/-- The map literal SubscribeTicker hands to subscribe. -/
def tickerFrame (env : Env) (pair : CurrencyPair) : SubFrame :=
  { id := lit "spot.ticker", sub := lit "market." ++ env.lowerSymbol pair ++ lit ".detail" }

/-- The map literal SubscribeTrade hands to subscribe. -/
def tradeFrame (env : Env) (pair : CurrencyPair) : SubFrame :=
  { id := lit "spot.trade",
    sub := lit "market." ++ env.lowerSymbol pair ++ lit ".trade.detail" }

/-- The variable periodS of SubscribeCandle: the table's token for the period, `1min` when the
table has none. -/
def candleToken (env : Env) (period : KlinePeriod) : GoString :=
  match mapLookup env.INERNAL_KLINE_PERIOD_CONVERTER period with
  | some t => t
  | none => lit "1min"

/-- The map literal SubscribeCandle hands to subscribe. -/
def candleFrame (env : Env) (pair : CurrencyPair) (period : KlinePeriod) : SubFrame :=
  { id := lit "spot.candle",
    sub := lit "market." ++ env.lowerSymbol pair ++ lit ".kline." ++ candleToken env period }

/-- A call of the public API of SpotWs: the four registrations and the four Subscribe
operations. -/
inductive Call where
  | DepthCallback (call : Option Fn)
  | TickerCallback (call : Option Fn)
  | TradeCallback (call : Option Fn)
  | CandleCallback (call : Option Fn)
  | SubscribeDepth (pair : CurrencyPair)
  | SubscribeTicker (pair : CurrencyPair)
  | SubscribeTrade (pair : CurrencyPair)
  | SubscribeCandle (pair : CurrencyPair) (period : KlinePeriod)
deriving DecidableEq, Repr

/-- One call on the client. -/
def Call.apply (env : Env) (ws : SpotWs) : Call → Result
  | .DepthCallback call => ⟨Huobi.DepthCallback ws call, [], .ret none⟩
  | .TickerCallback call => ⟨Huobi.TickerCallback ws call, [], .ret none⟩
  | .TradeCallback call => ⟨Huobi.TradeCallback ws call, [], .ret none⟩
  | .CandleCallback call => ⟨Huobi.CandleCallback ws call, [], .ret none⟩
  | .SubscribeDepth pair => Huobi.SubscribeDepth env ws pair
  | .SubscribeTicker pair => Huobi.SubscribeTicker env ws pair
  | .SubscribeTrade pair => Huobi.SubscribeTrade env ws pair
  | .SubscribeCandle pair period => Huobi.SubscribeCandle env ws pair period

/-- The client after a sequence of calls, made one after the other. -/
def run (env : Env) (ws : SpotWs) : List Call → SpotWs
  | [] => ws
  | c :: cs => run env (c.apply env ws).ws cs

/-- The frame a Subscribe operation builds, `none` for a registration. -/
def Call.frame (env : Env) : Call → Option SubFrame
  | .SubscribeDepth pair => some (depthFrame env pair)
  | .SubscribeTicker pair => some (tickerFrame env pair)
  | .SubscribeTrade pair => some (tradeFrame env pair)
  | .SubscribeCandle pair period => some (candleFrame env pair period)
  | _ => none

/-- The subscriptions issued by a sequence of calls, in call order: the frames of the
Subscribe operations that returned nil. -/
def issued (env : Env) (ws : SpotWs) : List Call → List SubFrame
  | [] => []
  | c :: cs =>
    (match c.frame env, (c.apply env ws).out with
      | some f, .ret none => [f]
      | _, _ => []) ++ issued env (c.apply env ws).ws cs

/-- Whether a call registers nothing or a non-nil function. -/
def Call.nonNil : Call → Bool
  | .DepthCallback call => call.isSome
  | .TickerCallback call => call.isSome
  | .TradeCallback call => call.isSome
  | .CandleCallback call => call.isSome
  | _ => true

/-! ## The read task and reconnection -/

/-- What the transport gives the read task: an inbound frame, or the loss of the connection. -/
inductive Input where
  | frame (msg : List Byte)
  | disconnect
deriving DecidableEq, Repr

/-- What the read task does, in order: it re-sends a subscription, or hands a frame to
handle. -/
inductive Step where
  | resent (sub : SubFrame)
  | handed (msg : List Byte)
deriving DecidableEq, Repr

/-- Modelled from the spec: reconnection of the transport (WsConn with AutoReconnect, outside
this file).  On a disconnection the manager reconnects and replays every subscription held by
the connection, in the order they were issued, before the read loop resumes. -/
def WsConn.replay (c : WsConn) : List Step := c.subs.map Step.resent

/-- Modelled from the spec: the read loop of the connection.  Each inbound frame is handed to
handle; a disconnection is followed by the replay; a panic of handle ends the task. -/
def readLoop (env : Env) : SpotWs → List Input → List Step
  | _, [] => []
  | ws, .frame msg :: rest =>
    match (handle env ws msg).out with
    | .panic _ => [Step.handed msg]
    | .ret _ => Step.handed msg :: readLoop env (handle env ws msg).ws rest
  | ws, .disconnect :: rest =>
    (match ws.wsConn with
      | none => []
      | some c => c.replay) ++ readLoop env ws rest

/-- A ticker payload: amount, close, high, low. -/
def sampleDetailTick : List Byte :=
  lit "\x7b\"amount\":10.5,\"close\":1309.43,\"high\":1310.0,\"low\":1300.5\x7d"

/-- What json.Unmarshal makes of `sampleDetailTick` as a DetailResponse. -/
def sampleDetailResponse : DetailResponse :=
  { Close := ⟨4653473749489386783⟩, High := ⟨4653476256375898112⟩,
    Low := ⟨4653434474934042624⟩, Amount := ⟨4622100592565682176⟩ }

/-- The sample environment that decodes the ticker envelope (ch, 1611162033214,
sampleDetailTick) and its payload. -/
def tickerEnv (ch : GoString) : Env :=
  sampleEnv [(envelopeBytes ch (lit "1611162033214") sampleDetailTick,
      ⟨ch, 1611162033214, sampleDetailTick⟩)]
    [] [] [] [(sampleDetailTick, sampleDetailResponse)]

/-! ## Theorems -/

/-! ### Shared lemmas on handle -/

theorem handle_ping (env : Env) (ws : SpotWs) (c : WsConn) (msg : List Byte)
    (hping : Contains msg (lit "ping") = true) (hc : ws.wsConn = some c) :
    handle env ws msg =
      ⟨{ ws with wsConn := some { c with
            sent := c.sent ++ [ReplaceAll msg (lit "ping") (lit "pong")] } }, [], .ret none⟩ := by
  simp [handle, hping, hc, WsConn.SendMessage]

theorem tradeLoop_kind (cb : Option Fn) (p : CurrencyPair) (ts : List Trade) :
    ∀ e ∈ (tradeLoop cb p ts).1, e.callbackKind = some Kind.Trade := by
  induction ts with
  | nil => simp [tradeLoop]
  | cons v rest ih =>
    cases cb with
    | none => simp [tradeLoop]
    | some f =>
      intro e he
      simp only [tradeLoop, List.mem_cons] at he
      rcases he with rfl | he
      · rfl
      · exact ih e he

theorem tradeLoop_some (f : Fn) (p : CurrencyPair) (ts : List Trade) :
    tradeLoop (some f) p ts =
      (ts.map (fun v => Event.tradeCall f { v with Pair := p }), .ret none) := by
  induction ts with
  | nil => rfl
  | cons v rest ih => simp [tradeLoop, ih]

/-- Every callback that handle invokes for a decoded envelope is the one of the kind the
check chain selects for its channel name. -/
theorem handle_callbacks_kind (env : Env) (ws : SpotWs) (msg : List Byte) (resp : WsResponse)
    (hping : Contains msg (lit "ping") = false)
    (hdec : env.unmarshalWsResponse msg = .ok resp) :
    ∀ e ∈ (handle env ws msg).events, ∀ k, e.callbackKind = some k → k = classify resp.Ch := by
  intro e he k hk
  unfold handle at he
  simp only [hping, hdec] at he
  unfold classify
  split_ifs at he ⊢ <;> (split at he) <;> try (split at he)
  all_goals try (split at he)
  all_goals simp at he
  all_goals first
    | (subst he; simp [Event.callbackKind] at hk; try exact hk.symm)
    | (rw [tradeLoop_kind _ _ _ e he] at hk; cases hk; rfl)

/-! ### Subscribe guards -/

/-- SubscribeDepth, SubscribeTicker and SubscribeCandle fail fast on their own callback: the
state is returned unchanged, so no connection is built and no frame is handed over. -/
theorem subscribe_guard_own_callback (env : Env) (ws : SpotWs) (pair : CurrencyPair)
    (period : KlinePeriod) :
    (ws.depthCallback = none →
      SubscribeDepth env ws pair = ⟨ws, [], .ret (some ⟨"please set depth callback func"⟩)⟩) ∧
    (ws.tickerCallback = none →
      SubscribeTicker env ws pair =
        ⟨ws, [], .ret (some ⟨"please set ticker call back func"⟩)⟩) ∧
    (ws.candleCallback = none →
      SubscribeCandle env ws pair period =
        ⟨ws, [], .ret (some ⟨"please set candle call back func"⟩)⟩) := by
  refine ⟨fun h => ?_, fun h => ?_, fun h => ?_⟩ <;>
    simp [SubscribeDepth, SubscribeTicker, SubscribeCandle, h]

/-- C1 (defect in the code): SubscribeTrade guards on the ticker callback instead of the trade
callback.  On a new client with only the ticker callback registered, the trade callback is
unregistered, yet SubscribeTrade returns nil, builds the connection and hands the frame
`spot.trade` to it. -/
theorem SubscribeTrade_ignores_trade_callback (env : Env) (pair : CurrencyPair) (f : Fn) :
    (TickerCallback NewSpotWs (some f)).tradeCallback = none ∧
    SubscribeTrade env (TickerCallback NewSpotWs (some f)) pair =
      ⟨{ onceDone := true, builds := 1,
         wsConn := some
           { WsUrl := wsUrl,
             subs := [⟨lit "spot.trade",
                       lit "market." ++ env.lowerSymbol pair ++ lit ".trade.detail"⟩],
             sent := [] },
         candleCallback := none, tickerCallback := some f, depthCallback := none,
         tradeCallback := none }, [], .ret none⟩ := by
  simp [SubscribeTrade, TickerCallback, NewSpotWs, subscribe, connectWs, Build,
    WsConn.Subscribe]

/-! ### Classification -/

/-- C2 (as stated, refuted): the envelope on `market.klineusdt.trade.detail` ends with
`.trade.detail`, yet the chain selects Candle and handle invokes the candle callback. -/
theorem trade_suffix_classified_candle :
    HasSuffix (lit "market.klineusdt.trade.detail") (lit ".trade.detail") = true ∧
    classify (lit "market.klineusdt.trade.detail") = Kind.Candle ∧
    (handle (envFor (lit "market.klineusdt.trade.detail") (lit "1611162033214") 1611162033214)
        readyWs
        (envelopeBytes (lit "market.klineusdt.trade.detail") (lit "1611162033214")
          sampleTradeTick)).events =
      [Event.candleCall 1
        { Pair := ⟨lit "kline", lit "usdt"⟩, Period := 1, Timestamp := 0, Open := ⟨0⟩,
          Close := ⟨0⟩, High := ⟨0⟩, Low := ⟨0⟩, Count := ⟨0⟩, Vol := ⟨0⟩ }] := by
  decide

/-- C2 (amended): for a decoded envelope whose channel name ends with `.trade.detail`, the
chain never selects Ticker and the ticker callback is not invoked; when the channel name
contains neither `mbp.refresh` nor `kline`, the chain selects Trade and only the trade
callback can be invoked. -/
theorem trade_suffix_classification (env : Env) (ws : SpotWs) (msg : List Byte)
    (resp : WsResponse) (hping : Contains msg (lit "ping") = false)
    (hdec : env.unmarshalWsResponse msg = .ok resp)
    (hsuf : HasSuffix resp.Ch (lit ".trade.detail") = true) :
    classify resp.Ch ≠ Kind.Ticker ∧
    (∀ e ∈ (handle env ws msg).events, e.callbackKind ≠ some Kind.Ticker) ∧
    (Contains resp.Ch (lit "mbp.refresh") = false → Contains resp.Ch (lit "kline") = false →
      classify resp.Ch = Kind.Trade ∧
      ∀ e ∈ (handle env ws msg).events, ∀ k, e.callbackKind = some k → k = Kind.Trade) := by
  have hne : classify resp.Ch ≠ Kind.Ticker := by
    unfold classify
    split_ifs <;> simp_all
  refine ⟨hne, ?_, ?_⟩
  · intro e he hk
    exact hne (handle_callbacks_kind env ws msg resp hping hdec e he _ hk).symm
  · intro hmbp hkline
    have hc : classify resp.Ch = Kind.Trade := by simp [classify, hmbp, hkline, hsuf]
    refine ⟨hc, fun e he k hk => ?_⟩
    rw [← hc]
    exact handle_callbacks_kind env ws msg resp hping hdec e he k hk

/-- Witness for C2 (amended): the end-to-end trade envelope on `market.btcusdt.trade.detail`. -/
theorem trade_suffix_classification_witness :
    classify (lit "market.btcusdt.trade.detail") = Kind.Trade ∧
    (handle (envFor (lit "market.btcusdt.trade.detail") (lit "1611162033214") 1611162033214)
        readyWs
        (envelopeBytes (lit "market.btcusdt.trade.detail") (lit "1611162033214")
          sampleTradeTick)).events.length = 1 := by
  have h := trade_suffix_classification
    (envFor (lit "market.btcusdt.trade.detail") (lit "1611162033214") 1611162033214) readyWs
    (envelopeBytes (lit "market.btcusdt.trade.detail") (lit "1611162033214") sampleTradeTick)
    ⟨lit "market.btcusdt.trade.detail", 1611162033214, sampleTradeTick⟩
    (by decide) (by decide) (by decide)
  exact ⟨(h.2.2 (by decide) (by decide)).1, by decide⟩

/-- C3: for a decoded envelope whose channel name contains `mbp.refresh`, the chain selects
Depth whatever else the name contains: only the depth callback can be invoked, and it is
invoked once when the depth payload decodes and the callback is registered. -/
theorem mbp_refresh_is_depth (env : Env) (ws : SpotWs) (msg : List Byte) (resp : WsResponse)
    (hping : Contains msg (lit "ping") = false)
    (hdec : env.unmarshalWsResponse msg = .ok resp)
    (hmbp : Contains resp.Ch (lit "mbp.refresh") = true) :
    classify resp.Ch = Kind.Depth ∧
    (∀ e ∈ (handle env ws msg).events, ∀ k, e.callbackKind = some k → k = Kind.Depth) ∧
    (∀ d f, env.unmarshalDepthResponse resp.Tick = .ok d → ws.depthCallback = some f →
      ∃ dep, handle env ws msg = ⟨ws, [Event.depthCall f dep], .ret none⟩) := by
  have hc : classify resp.Ch = Kind.Depth := by simp [classify, hmbp]
  refine ⟨hc, fun e he k hk => ?_, fun d f hd hf => ?_⟩
  · rw [← hc]
    exact handle_callbacks_kind env ws msg resp hping hdec e he k hk
  · exact ⟨_, by simp [handle, hping, hdec, hmbp, hd, hf]; rfl⟩

/-- Witness for C3: a depth channel whose name also contains `kline` and ends with
`.trade.detail`. -/
theorem mbp_refresh_is_depth_witness :
    classify (lit "market.klineusdt.mbp.refresh.trade.detail") = Kind.Depth ∧
    ∃ dep, handle
        (envFor (lit "market.klineusdt.mbp.refresh.trade.detail") (lit "1611162033214")
          1611162033214)
        readyWs
        (envelopeBytes (lit "market.klineusdt.mbp.refresh.trade.detail") (lit "1611162033214")
          sampleTradeTick) = ⟨readyWs, [Event.depthCall 3 dep], .ret none⟩ := by
  have h := mbp_refresh_is_depth
    (envFor (lit "market.klineusdt.mbp.refresh.trade.detail") (lit "1611162033214")
      1611162033214)
    readyWs
    (envelopeBytes (lit "market.klineusdt.mbp.refresh.trade.detail") (lit "1611162033214")
      sampleTradeTick)
    ⟨lit "market.klineusdt.mbp.refresh.trade.detail", 1611162033214, sampleTradeTick⟩
    (by decide) (by decide) (by decide)
  exact ⟨h.1, h.2.2 ⟨[], []⟩ 3 (by decide) (by decide)⟩

/-! ### Heartbeat -/

theorem lit_ping : lit "ping" = [112, 105, 110, 103] := by decide

theorem lit_pong : lit "pong" = [112, 111, 110, 103] := by decide

theorem ReplaceAll_ping_nil : ReplaceAll [] (lit "ping") (lit "pong") = [] := by decide

theorem ReplaceAll_ping_match (t : List Byte) :
    ReplaceAll (lit "ping" ++ t) (lit "ping") (lit "pong") =
      lit "pong" ++ ReplaceAll t (lit "ping") (lit "pong") := by
  simp only [lit_ping, lit_pong]
  simp [ReplaceAll, replaceScan, List.isPrefixOf]

theorem ReplaceAll_ping_step (b : Byte) (rest : List Byte)
    (h : ¬ lit "ping" <+: b :: rest) :
    ReplaceAll (b :: rest) (lit "ping") (lit "pong") =
      b :: ReplaceAll rest (lit "ping") (lit "pong") := by
  have h2 : (lit "ping").isPrefixOf (b :: rest) = false := by
    cases hb : (lit "ping").isPrefixOf (b :: rest) with
    | false => rfl
    | true => exact absurd (List.isPrefixOf_iff_prefix.mp hb) h
  simp only [lit_ping, lit_pong] at h2 ⊢
  simp [ReplaceAll, replaceScan, h2]

theorem isPongReply_nil : IsPongReply [] [] := by
  refine ⟨rfl, ?_, fun _ _ => rfl⟩
  intro i hocc
  simp [lit_ping] at hocc

theorem isPongReply_match (t r : List Byte) (h : IsPongReply t r) :
    IsPongReply (lit "ping" ++ t) (lit "pong" ++ r) := by
  obtain ⟨h1, h2, h3⟩ := h
  unfold IsPongReply
  simp only [lit_ping, lit_pong] at *
  refine ⟨by simp [h1], ?_, ?_⟩
  · intro i hocc j hj
    rcases i with _ | _ | _ | _ | i
    · rcases j with _ | _ | _ | _ | j
      · simp
      · simp
      · simp
      · simp
      · omega
    · simp at hocc
    · simp at hocc
    · simp at hocc
    · have hocc2 : [112, 105, 110, 103] <+: t.drop i := by simpa using hocc
      have e : i + 1 + 1 + 1 + 1 + j = (i + j) + 1 + 1 + 1 + 1 := by omega
      rw [e]
      simpa using h2 i hocc2 j hj
  · intro k hk
    rcases k with _ | _ | _ | _ | k
    · exact absurd (by simp) (hk 0 (by omega) (by omega))
    · exact absurd (by simp) (hk 0 (by omega) (by omega))
    · exact absurd (by simp) (hk 0 (by omega) (by omega))
    · exact absurd (by simp) (hk 0 (by omega) (by omega))
    · have hk2 : ∀ i, i ≤ k → k < i + 4 → ¬ [112, 105, 110, 103] <+: t.drop i := by
        intro i hi1 hi2 hocc
        exact hk (i + 4) (by omega) (by omega) (by simpa using hocc)
      simpa using h3 k hk2

theorem isPongReply_step (b : Byte) (rest r : List Byte)
    (hp : ¬ lit "ping" <+: b :: rest) (h : IsPongReply rest r) :
    IsPongReply (b :: rest) (b :: r) := by
  obtain ⟨h1, h2, h3⟩ := h
  unfold IsPongReply
  simp only [lit_ping, lit_pong] at *
  refine ⟨by simp [h1], ?_, ?_⟩
  · intro i hocc j hj
    rcases i with _ | i
    · exact absurd (by simpa using hocc) hp
    · have hocc2 : [112, 105, 110, 103] <+: rest.drop i := by simpa using hocc
      have e : i + 1 + j = (i + j) + 1 := by omega
      rw [e]
      simpa using h2 i hocc2 j hj
  · intro k hk
    rcases k with _ | k
    · simp
    · have hk2 : ∀ i, i ≤ k → k < i + 4 → ¬ [112, 105, 110, 103] <+: rest.drop i := by
        intro i hi1 hi2 hocc
        exact hk (i + 1) (by omega) (by omega) (by simpa using hocc)
      simpa using h3 k hk2

theorem ReplaceAll_ping_isPongReply_aux (n : Nat) :
    ∀ msg : List Byte, msg.length ≤ n →
      IsPongReply msg (ReplaceAll msg (lit "ping") (lit "pong")) := by
  induction n with
  | zero =>
    intro msg hlen
    have : msg = [] := List.length_eq_zero.mp (Nat.le_zero.mp hlen)
    subst this
    rw [ReplaceAll_ping_nil]
    exact isPongReply_nil
  | succ n ih =>
    intro msg hlen
    by_cases hp : lit "ping" <+: msg
    · obtain ⟨t, rfl⟩ := hp
      have ht : t.length ≤ n := by
        simp [lit_ping] at hlen
        omega
      rw [ReplaceAll_ping_match]
      exact isPongReply_match _ _ (ih t ht)
    · cases msg with
      | nil =>
        rw [ReplaceAll_ping_nil]
        exact isPongReply_nil
      | cons b rest =>
        rw [ReplaceAll_ping_step b rest hp]
        exact isPongReply_step b rest _ hp (ih rest (by simpa using hlen))

theorem ReplaceAll_ping_isPongReply (msg : List Byte) :
    IsPongReply msg (ReplaceAll msg (lit "ping") (lit "pong")) :=
  ReplaceAll_ping_isPongReply_aux msg.length msg (Nat.le_refl _)

/-- C4: for a frame containing `ping`, handed to handle on a built connection, the message
sent on the connection is the frame with every occurrence of `ping` replaced by `pong` and
every other byte unchanged. -/
theorem handle_ping_reply (env : Env) (ws : SpotWs) (c : WsConn) (msg : List Byte)
    (hping : Contains msg (lit "ping") = true) (hc : ws.wsConn = some c) :
    ∃ reply, (handle env ws msg).ws.wsConn = some { c with sent := c.sent ++ [reply] } ∧
      IsPongReply msg reply := by
  refine ⟨ReplaceAll msg (lit "ping") (lit "pong"), ?_, ReplaceAll_ping_isPongReply msg⟩
  rw [handle_ping env ws c msg hping hc]

/-- Witness for C4: the frame `{"ping": 12345}` is answered by `{"pong": 12345}`. -/
theorem handle_ping_reply_witness :
    (∃ reply,
      (handle (sampleEnv [] [] [] [] []) readyWs (lit "\x7b\"ping\": 12345\x7d")).ws.wsConn =
        some { Build with sent := Build.sent ++ [reply] } ∧
      IsPongReply (lit "\x7b\"ping\": 12345\x7d") reply) ∧
    (handle (sampleEnv [] [] [] [] []) readyWs (lit "\x7b\"ping\": 12345\x7d")).ws.wsConn =
      some { Build with sent := [lit "\x7b\"pong\": 12345\x7d"] } :=
  ⟨handle_ping_reply (sampleEnv [] [] [] [] []) readyWs Build (lit "\x7b\"ping\": 12345\x7d")
    (by decide) (by decide), by decide⟩

/-- C5: heartbeat detection precedes routing.  A frame containing `ping`, handed to handle
on a built connection, makes handle send exactly one reply, invoke no callback and return
nil, whatever the decoders would make of the frame; a frame without `ping` leaves the
connection as it was, nothing is sent. -/
theorem heartbeat_precedes_routing (env : Env) (ws : SpotWs) (msg : List Byte) :
    (Contains msg (lit "ping") = true → ∀ c, ws.wsConn = some c →
      handle env ws msg =
        ⟨{ ws with wsConn := some { c with
              sent := c.sent ++ [ReplaceAll msg (lit "ping") (lit "pong")] } }, [],
          .ret none⟩ ∧
      ∀ env2 : Env, handle env2 ws msg = handle env ws msg) ∧
    (Contains msg (lit "ping") = false → (handle env ws msg).ws = ws) := by
  refine ⟨fun hping c hc => ⟨handle_ping env ws c msg hping hc, fun env2 => ?_⟩, fun hping => ?_⟩
  · rw [handle_ping env ws c msg hping hc, handle_ping env2 ws c msg hping hc]
  · unfold handle
    simp only [hping, Bool.false_eq_true, if_false]
    repeat' split
    all_goals rfl

/-- Witness for C5: a well-formed trade envelope for the symbol `pingusdt` is answered as a
heartbeat and reaches no callback; the same envelope for `btcusdt` sends nothing. -/
theorem heartbeat_precedes_routing_witness :
    (handle (envFor (lit "market.pingusdt.trade.detail") (lit "1611162033214") 1611162033214)
        readyWs
        (envelopeBytes (lit "market.pingusdt.trade.detail") (lit "1611162033214")
          sampleTradeTick)).events = [] ∧
    (handle (envFor (lit "market.btcusdt.trade.detail") (lit "1611162033214") 1611162033214)
        readyWs
        (envelopeBytes (lit "market.btcusdt.trade.detail") (lit "1611162033214")
          sampleTradeTick)).ws = readyWs := by
  constructor
  · rw [((heartbeat_precedes_routing
      (envFor (lit "market.pingusdt.trade.detail") (lit "1611162033214") 1611162033214)
      readyWs
      (envelopeBytes (lit "market.pingusdt.trade.detail") (lit "1611162033214")
        sampleTradeTick)).1 (by decide) Build (by decide)).1]
  · exact (heartbeat_precedes_routing
      (envFor (lit "market.btcusdt.trade.detail") (lit "1611162033214") 1611162033214)
      readyWs
      (envelopeBytes (lit "market.btcusdt.trade.detail") (lit "1611162033214")
        sampleTradeTick)).2 (by decide)

/-! ### Safety -/

/-- C6 (defect in the code): with the connection built and the four callbacks registered,
the ticker envelope on `market.klineusdt.detail` reaches the candle branch, where the channel
name splits into 3 segments and the index 3 is out of range: handle panics. -/
theorem handle_kline_index_panics :
    Split (lit "market.klineusdt.detail") (lit ".") =
      [lit "market", lit "klineusdt", lit "detail"] ∧
    handle (envFor (lit "market.klineusdt.detail") (lit "1611162033214") 1611162033214)
        readyWs
        (envelopeBytes (lit "market.klineusdt.detail") (lit "1611162033214") sampleTradeTick) =
      ⟨readyWs, [], .panic (.indexOutOfRange 3 3)⟩ := by
  decide

/-! ### Dispatch of a decoded envelope, branch by branch -/

theorem classify_candle_iff (ch : GoString) :
    classify ch = Kind.Candle ↔
      Contains ch (lit "mbp.refresh") = false ∧ Contains ch (lit "kline") = true := by
  unfold classify
  split_ifs <;> simp_all

theorem classify_trade_iff (ch : GoString) :
    classify ch = Kind.Trade ↔
      Contains ch (lit "mbp.refresh") = false ∧ Contains ch (lit "kline") = false ∧
        HasSuffix ch (lit ".trade.detail") = true := by
  unfold classify
  split_ifs <;> simp_all

theorem classify_ticker_iff (ch : GoString) :
    classify ch = Kind.Ticker ↔
      Contains ch (lit "mbp.refresh") = false ∧ Contains ch (lit "kline") = false ∧
        HasSuffix ch (lit ".trade.detail") = false ∧ HasSuffix ch (lit ".detail") = true := by
  unfold classify
  split_ifs <;> simp_all

theorem handle_depth (env : Env) (ws : SpotWs) (msg : List Byte) (resp : WsResponse)
    (d : DepthResponse) (f : Fn)
    (hping : Contains msg (lit "ping") = false)
    (hdec : env.unmarshalWsResponse msg = .ok resp)
    (hmbp : Contains resp.Ch (lit "mbp.refresh") = true)
    (hd : env.unmarshalDepthResponse resp.Tick = .ok d) (hf : ws.depthCallback = some f) :
    handle env ws msg =
      ⟨ws, [Event.depthCall f
        { env.ParseDepthFromResponse d with
          Pair := env.ParseCurrencyPairFromSpotWsCh resp.Ch,
          UTime := timeUnix 0 (wrapInt64 (resp.Ts * Millisecond)) }], .ret none⟩ := by
  simp [handle, hping, hdec, hmbp, hd, hf]

theorem handle_candle (env : Env) (ws : SpotWs) (msg : List Byte) (resp : WsResponse)
    (periodS : GoString) (kl : KlineResponse) (f : Fn)
    (hping : Contains msg (lit "ping") = false)
    (hdec : env.unmarshalWsResponse msg = .ok resp)
    (hcl : classify resp.Ch = Kind.Candle)
    (hseg : (Split resp.Ch (lit "."))[3]? = some periodS)
    (hkl : env.unmarshalKlineResponse resp.Tick = .ok kl) (hf : ws.candleCallback = some f) :
    handle env ws msg =
      ⟨ws, [Event.candleCall f
        { Pair := env.ParseCurrencyPairFromSpotWsCh resp.Ch,
          Period := reversePeriod env periodS, Timestamp := kl.ID, Open := kl.Open,
          Close := kl.Close, High := kl.High, Low := kl.Low, Count := kl.Count,
          Vol := kl.Vol }], .ret none⟩ := by
  obtain ⟨hmbp, hkline⟩ := (classify_candle_iff _).mp hcl
  simp [handle, hping, hdec, hmbp, hkline, hseg, hkl, hf]

theorem handle_trade (env : Env) (ws : SpotWs) (msg : List Byte) (resp : WsResponse)
    (tr : SpotTradeResponse) (f : Fn)
    (hping : Contains msg (lit "ping") = false)
    (hdec : env.unmarshalWsResponse msg = .ok resp)
    (hcl : classify resp.Ch = Kind.Trade)
    (htr : env.unmarshalSpotTradeResponse resp.Tick = .ok tr)
    (hf : ws.tradeCallback = some f) :
    handle env ws msg =
      ⟨ws, tr.Data.map (fun v => Event.tradeCall f
        { Tid := v.TradeId, Price := v.Price, Amount := v.Amount,
          Side := env.AdaptTradeSide v.Direction, Date := v.Ts,
          Pair := env.ParseCurrencyPairFromSpotWsCh resp.Ch }), .ret none⟩ := by
  obtain ⟨hmbp, hkline, hsuf⟩ := (classify_trade_iff _).mp hcl
  simp [handle, hping, hdec, hmbp, hkline, hsuf, htr, hf, tradeLoop_some, parseTrade,
    List.map_map, Function.comp_def]

theorem handle_ticker (env : Env) (ws : SpotWs) (msg : List Byte) (resp : WsResponse)
    (tk : DetailResponse) (f : Fn)
    (hping : Contains msg (lit "ping") = false)
    (hdec : env.unmarshalWsResponse msg = .ok resp)
    (hcl : classify resp.Ch = Kind.Ticker)
    (htk : env.unmarshalDetailResponse resp.Tick = .ok tk)
    (hf : ws.tickerCallback = some f) :
    handle env ws msg =
      ⟨ws, [Event.tickerCall f
        { Pair := env.ParseCurrencyPairFromSpotWsCh resp.Ch, Last := tk.Close, High := tk.High,
          Low := tk.Low, Vol := tk.Amount, Date := toUint64 resp.Ts }], .ret none⟩ := by
  obtain ⟨hmbp, hkline, htrade, hsuf⟩ := (classify_ticker_iff _).mp hcl
  simp [handle, hping, hdec, hmbp, hkline, htrade, hsuf, htk, hf]

/-! ### Period table -/

theorem foldl_period_no_match (t : GoString) (l : List (Int × GoString)) (init : Int)
    (h : ∀ e ∈ l, e.2 ≠ t) :
    l.foldl (fun period e => if t = e.2 then e.1 else period) init = init := by
  induction l generalizing init with
  | nil => rfl
  | cons e rest ih =>
    have he : ¬ t = e.2 := fun h2 => h e (List.mem_cons_self _ _) h2.symm
    simp only [List.foldl_cons, he, if_false]
    exact ih init (fun e2 h2 => h e2 (List.mem_cons_of_mem _ h2))

theorem foldl_period_unique (t : GoString) (g : Int) (l : List (Int × GoString)) (init : Int)
    (hmem : (g, t) ∈ l) (hnd : (l.map Prod.snd).Nodup) :
    l.foldl (fun period e => if t = e.2 then e.1 else period) init = g := by
  induction l generalizing init with
  | nil => simp at hmem
  | cons e rest ih =>
    simp only [List.map_cons, List.nodup_cons] at hnd
    simp only [List.foldl_cons]
    rcases List.mem_cons.mp hmem with h | h
    · subst h
      simp only [if_true]
      apply foldl_period_no_match
      intro e2 he2 heq
      have h3 : e2.2 ∈ rest.map Prod.snd := List.mem_map_of_mem Prod.snd he2
      rw [heq] at h3
      exact hnd.1 h3
    · exact ih _ h hnd.2

theorem mapLookup_mem (m : List (Int × GoString)) (g : Int) (t : GoString)
    (h : mapLookup m g = some t) : (g, t) ∈ m := by
  unfold mapLookup at h
  cases hf : m.find? (fun e => e.1 == g) with
  | none => simp [hf] at h
  | some e =>
    simp [hf] at h
    have h1 := List.find?_some hf
    have h2 := List.mem_of_find?_eq_some hf
    simp at h1
    have : e = (g, t) := by
      cases e
      simp_all
    exact this ▸ h2

theorem wrapInt64_of_range (x : Int) (h1 : -2 ^ 63 ≤ x) (h2 : x < 2 ^ 63) : wrapInt64 x = x := by
  unfold wrapInt64
  omega

/-- C7: period round trip.  When the period table forward-maps the granularity `g` to the
token `t` and no other entry of the table carries `t`, a candle frame whose channel name has
`t` as 4th dot-separated segment is delivered to the candle callback with Period `g`, in
whatever order the table is visited. -/
theorem period_round_trip (env : Env) (ws : SpotWs) (msg : List Byte) (resp : WsResponse)
    (t : GoString) (kl : KlineResponse) (f : Fn) (g : Int)
    (hping : Contains msg (lit "ping") = false)
    (hdec : env.unmarshalWsResponse msg = .ok resp)
    (hcl : classify resp.Ch = Kind.Candle)
    (hseg : (Split resp.Ch (lit "."))[3]? = some t)
    (hkl : env.unmarshalKlineResponse resp.Tick = .ok kl) (hf : ws.candleCallback = some f)
    (hfwd : mapLookup env.INERNAL_KLINE_PERIOD_CONVERTER g = some t)
    (hinj : (env.INERNAL_KLINE_PERIOD_CONVERTER.map Prod.snd).Nodup) :
    handle env ws msg =
      ⟨ws, [Event.candleCall f
        { Pair := env.ParseCurrencyPairFromSpotWsCh resp.Ch, Period := g, Timestamp := kl.ID,
          Open := kl.Open, Close := kl.Close, High := kl.High, Low := kl.Low,
          Count := kl.Count, Vol := kl.Vol }], .ret none⟩ := by
  rw [handle_candle env ws msg resp t kl f hping hdec hcl hseg hkl hf]
  have : reversePeriod env t = g :=
    foldl_period_unique t g _ _ (mapLookup_mem _ g t hfwd) hinj
  rw [this]

/-- Witness for C7: the candle frame on `market.btcusdt.kline.5min` with the sample table,
which maps 3 to `5min`. -/
theorem period_round_trip_witness :
    handle (candleEnv (lit "market.btcusdt.kline.5min")) readyWs
        (envelopeBytes (lit "market.btcusdt.kline.5min") (lit "1611162033214")
          sampleKlineTick) =
      ⟨readyWs, [Event.candleCall 1
        { Pair := ⟨lit "btc", lit "usdt"⟩, Period := 3, Timestamp := 1611162000,
          Open := ⟨4653455365654970368⟩, Close := ⟨4653473749489386783⟩,
          High := ⟨4653476256375898112⟩, Low := ⟨4653434474934042624⟩, Count := ⟨0⟩,
          Vol := ⟨4622100592565682176⟩ }], .ret none⟩ :=
  period_round_trip (candleEnv (lit "market.btcusdt.kline.5min")) readyWs
    (envelopeBytes (lit "market.btcusdt.kline.5min") (lit "1611162033214") sampleKlineTick)
    ⟨lit "market.btcusdt.kline.5min", 1611162033214, sampleKlineTick⟩ (lit "5min")
    sampleKlineResponse 1 3 (by decide) (by decide) (by decide) (by decide) (by decide)
    (by decide) (by decide) (by decide)

/-- C8: reverse-mapping fallback.  A candle frame whose granularity token (the 4th
dot-separated segment of the channel name) equals no token of the period table is delivered to
the candle callback with Period KLINE_PERIOD_1MIN, and handle returns nil. -/
theorem period_fallback (env : Env) (ws : SpotWs) (msg : List Byte) (resp : WsResponse)
    (t : GoString) (kl : KlineResponse) (f : Fn)
    (hping : Contains msg (lit "ping") = false)
    (hdec : env.unmarshalWsResponse msg = .ok resp)
    (hcl : classify resp.Ch = Kind.Candle)
    (hseg : (Split resp.Ch (lit "."))[3]? = some t)
    (hkl : env.unmarshalKlineResponse resp.Tick = .ok kl) (hf : ws.candleCallback = some f)
    (hnone : ∀ e ∈ env.INERNAL_KLINE_PERIOD_CONVERTER, e.2 ≠ t) :
    handle env ws msg =
      ⟨ws, [Event.candleCall f
        { Pair := env.ParseCurrencyPairFromSpotWsCh resp.Ch, Period := env.KLINE_PERIOD_1MIN,
          Timestamp := kl.ID, Open := kl.Open, Close := kl.Close, High := kl.High,
          Low := kl.Low, Count := kl.Count, Vol := kl.Vol }], .ret none⟩ := by
  rw [handle_candle env ws msg resp t kl f hping hdec hcl hseg hkl hf]
  have : reversePeriod env t = env.KLINE_PERIOD_1MIN :=
    foldl_period_no_match t _ _ hnone
  rw [this]

/-- Witness for C8: the candle frame on `market.btcusdt.kline.17min`. -/
theorem period_fallback_witness :
    handle (candleEnv (lit "market.btcusdt.kline.17min")) readyWs
        (envelopeBytes (lit "market.btcusdt.kline.17min") (lit "1611162033214")
          sampleKlineTick) =
      ⟨readyWs, [Event.candleCall 1
        { Pair := ⟨lit "btc", lit "usdt"⟩, Period := 1, Timestamp := 1611162000,
          Open := ⟨4653455365654970368⟩, Close := ⟨4653473749489386783⟩,
          High := ⟨4653476256375898112⟩, Low := ⟨4653434474934042624⟩, Count := ⟨0⟩,
          Vol := ⟨4622100592565682176⟩ }], .ret none⟩ :=
  period_fallback (candleEnv (lit "market.btcusdt.kline.17min")) readyWs
    (envelopeBytes (lit "market.btcusdt.kline.17min") (lit "1611162033214") sampleKlineTick)
    ⟨lit "market.btcusdt.kline.17min", 1611162033214, sampleKlineTick⟩ (lit "17min")
    sampleKlineResponse 1 (by decide) (by decide) (by decide) (by decide) (by decide)
    (by decide) (by decide)

/-! ### Trade prints -/

/-- C9: for a Trade-classified frame whose payload decodes to the prints `tr.Data`, with a
trade callback registered, handle invokes that callback once per print, in payload order, with
the print's tradeId, price, amount and ts and the pair parsed from the channel name; it invokes
nothing else and returns nil. -/
theorem trade_prints_dispatched (env : Env) (ws : SpotWs) (msg : List Byte)
    (resp : WsResponse) (tr : SpotTradeResponse) (f : Fn)
    (hping : Contains msg (lit "ping") = false)
    (hdec : env.unmarshalWsResponse msg = .ok resp)
    (hcl : classify resp.Ch = Kind.Trade)
    (htr : env.unmarshalSpotTradeResponse resp.Tick = .ok tr)
    (hf : ws.tradeCallback = some f) :
    handle env ws msg =
      ⟨ws, tr.Data.map (fun v => Event.tradeCall f
        { Tid := v.TradeId, Price := v.Price, Amount := v.Amount,
          Side := env.AdaptTradeSide v.Direction, Date := v.Ts,
          Pair := env.ParseCurrencyPairFromSpotWsCh resp.Ch }), .ret none⟩ ∧
    (handle env ws msg).events.length = tr.Data.length := by
  have h := handle_trade env ws msg resp tr f hping hdec hcl htr hf
  exact ⟨h, by rw [h]; simp⟩

/-- Witness for C9: the end-to-end envelope on `market.btcusdt.trade.detail` with one print
gives exactly one call, with price 1309.43, amount 2.3227 and the pair of `btcusdt`. -/
theorem trade_prints_dispatched_witness :
    handle (envFor (lit "market.btcusdt.trade.detail") (lit "1611162033214") 1611162033214)
        readyWs
        (envelopeBytes (lit "market.btcusdt.trade.detail") (lit "1611162033214")
          sampleTradeTick) =
      ⟨readyWs, [Event.tradeCall 4
        { Tid := 102051183444, Price := ⟨4653473749489386783⟩,
          Amount := ⟨4612412674227264134⟩, Side := 1, Date := 1611162033202,
          Pair := ⟨lit "btc", lit "usdt"⟩ }], .ret none⟩ :=
  (trade_prints_dispatched
    (envFor (lit "market.btcusdt.trade.detail") (lit "1611162033214") 1611162033214) readyWs
    (envelopeBytes (lit "market.btcusdt.trade.detail") (lit "1611162033214") sampleTradeTick)
    ⟨lit "market.btcusdt.trade.detail", 1611162033214, sampleTradeTick⟩ sampleTradeResponse 4
    (by decide) (by decide) (by decide) (by decide) (by decide)).1

/-! ### Event timestamps -/

/-- C10 (as stated, refuted): the end-to-end trade envelope has `ts` 1611162033214, and the
trade event handed to the callback carries, as a raw integer, the print's own `ts`
1611162033202. -/
theorem trade_event_date_is_print_ts :
    (envFor (lit "market.btcusdt.trade.detail") (lit "1611162033214")
        1611162033214).unmarshalWsResponse
        (envelopeBytes (lit "market.btcusdt.trade.detail") (lit "1611162033214")
          sampleTradeTick) =
      .ok ⟨lit "market.btcusdt.trade.detail", 1611162033214, sampleTradeTick⟩ ∧
    (handle (envFor (lit "market.btcusdt.trade.detail") (lit "1611162033214") 1611162033214)
        readyWs
        (envelopeBytes (lit "market.btcusdt.trade.detail") (lit "1611162033214")
          sampleTradeTick)).events.map
        (fun e => match e with
          | Event.tradeCall _ t => t.Date
          | _ => 0) = [1611162033202] ∧
    (1611162033202 : Int) ≠ 1611162033214 := by
  decide

/-- C10 (amended): of the four kinds of event, only the depth event carries the envelope's
`ts` as an absolute time, the instant `ts` milliseconds after the epoch (for a `ts` whose
nanosecond count fits an int64).  The ticker event carries `ts` as the raw integer, converted
to uint64; each trade event carries its own print's `ts`; the candle event carries the
payload's `id`. -/
theorem event_timestamps (env : Env) (ws : SpotWs) (msg : List Byte) (resp : WsResponse)
    (hping : Contains msg (lit "ping") = false)
    (hdec : env.unmarshalWsResponse msg = .ok resp) :
    (∀ d f, classify resp.Ch = Kind.Depth → env.unmarshalDepthResponse resp.Tick = .ok d →
      ws.depthCallback = some f → -2 ^ 63 ≤ resp.Ts * 1000000 → resp.Ts * 1000000 < 2 ^ 63 →
      ∃ dep, (handle env ws msg).events = [Event.depthCall f dep] ∧
        dep.UTime = ⟨resp.Ts * 1000000⟩) ∧
    (∀ tk f, classify resp.Ch = Kind.Ticker → env.unmarshalDetailResponse resp.Tick = .ok tk →
      ws.tickerCallback = some f →
      ∃ t, (handle env ws msg).events = [Event.tickerCall f t] ∧ t.Date = toUint64 resp.Ts) ∧
    (∀ tr f, classify resp.Ch = Kind.Trade →
      env.unmarshalSpotTradeResponse resp.Tick = .ok tr → ws.tradeCallback = some f →
      ∃ ts : List Trade, (handle env ws msg).events = ts.map (Event.tradeCall f) ∧
        ts.map (fun t => t.Date) = tr.Data.map (fun v => v.Ts)) ∧
    (∀ t kl f, classify resp.Ch = Kind.Candle → (Split resp.Ch (lit "."))[3]? = some t →
      env.unmarshalKlineResponse resp.Tick = .ok kl → ws.candleCallback = some f →
      ∃ c, (handle env ws msg).events = [Event.candleCall f c] ∧ c.Timestamp = kl.ID) := by
  refine ⟨?_, ?_, ?_, ?_⟩
  · intro d f hcl hd hf h1 h2
    have hmbp : Contains resp.Ch (lit "mbp.refresh") = true := by
      unfold classify at hcl
      split_ifs at hcl
      assumption
    rw [handle_depth env ws msg resp d f hping hdec hmbp hd hf]
    refine ⟨_, rfl, ?_⟩
    simp only [Millisecond, wrapInt64_of_range _ h1 h2, timeUnix]
    simp
  · intro tk f hcl htk hf
    rw [handle_ticker env ws msg resp tk f hping hdec hcl htk hf]
    exact ⟨_, rfl, rfl⟩
  · intro tr f hcl htr hf
    rw [handle_trade env ws msg resp tr f hping hdec hcl htr hf]
    refine ⟨tr.Data.map (fun v =>
      { Tid := v.TradeId, Price := v.Price, Amount := v.Amount,
        Side := env.AdaptTradeSide v.Direction, Date := v.Ts,
        Pair := env.ParseCurrencyPairFromSpotWsCh resp.Ch }), ?_, ?_⟩
    · simp [List.map_map, Function.comp_def]
    · simp [List.map_map, Function.comp_def]
  · intro t kl f hcl hseg hkl hf
    rw [handle_candle env ws msg resp t kl f hping hdec hcl hseg hkl hf]
    exact ⟨_, rfl, rfl⟩

/-- Witness for C10 (amended): the depth envelope on `market.btcusdt.mbp.refresh.20` with
`ts` 1611162033214 gives a depth event at 1611162033214000000 ns after the epoch. -/
theorem event_timestamps_witness :
    ∃ dep,
      (handle (envFor (lit "market.btcusdt.mbp.refresh.20") (lit "1611162033214")
          1611162033214)
        readyWs
        (envelopeBytes (lit "market.btcusdt.mbp.refresh.20") (lit "1611162033214")
          sampleTradeTick)).events = [Event.depthCall 3 dep] ∧
      dep.UTime = ⟨1611162033214000000⟩ :=
  (event_timestamps
    (envFor (lit "market.btcusdt.mbp.refresh.20") (lit "1611162033214") 1611162033214) readyWs
    (envelopeBytes (lit "market.btcusdt.mbp.refresh.20") (lit "1611162033214") sampleTradeTick)
    ⟨lit "market.btcusdt.mbp.refresh.20", 1611162033214, sampleTradeTick⟩
    (by decide) (by decide)).1 ⟨[], []⟩ 3 (by decide) (by decide) (by decide) (by decide)
    (by decide)

theorem HasSuffix_iff (s suf : GoString) : HasSuffix s suf = true ↔ suf <:+ s := by
  unfold HasSuffix
  simp only [Bool.and_eq_true, decide_eq_true_eq]
  constructor
  · rintro ⟨h1, h2⟩
    rw [← h2]
    exact List.drop_suffix _ _
  · intro h
    refine ⟨h.length_le, ?_⟩
    exact (List.suffix_iff_eq_drop.mp h).symm

theorem Contains_iff (s sub : List Byte) : Contains s sub = true ↔ sub <:+: s := by
  unfold Contains
  induction s with
  | nil =>
    cases sub with
    | nil => simp [Index]
    | cons a t => simp [Index]
  | cons b rest ih =>
    have e : Index (b :: rest) sub =
        if sub.isPrefixOf (b :: rest) then some 0 else (Index rest sub).map (· + 1) := rfl
    rw [List.infix_cons_iff, ← ih, e]
    by_cases hp : sub.isPrefixOf (b :: rest) = true
    · simp [hp, List.isPrefixOf_iff_prefix.mp hp]
    · have hp2 : ¬ sub <+: b :: rest := fun h => hp (List.isPrefixOf_iff_prefix.mpr h)
      simp [hp, hp2]

theorem trade_detail_suffix (ch : GoString)
    (h : HasSuffix ch (lit ".trade.detail") = true) : HasSuffix ch (lit ".detail") = true := by
  rw [HasSuffix_iff] at h ⊢
  exact List.IsSuffix.trans (by decide) h

/-! ### Ticker and unknown frames -/

/-- C11: for a decoded envelope whose channel name ends with `.detail`, does not end with
`.trade.detail` and contains neither `mbp.refresh` nor `kline`, whose payload decodes, handle
invokes the registered ticker callback once and nothing else, with the pair parsed from the
channel name and Last, High, Low, Vol set to the payload's close, high, low and amount. -/
theorem ticker_dispatched (env : Env) (ws : SpotWs) (msg : List Byte) (resp : WsResponse)
    (tk : DetailResponse) (f : Fn)
    (hping : Contains msg (lit "ping") = false)
    (hdec : env.unmarshalWsResponse msg = .ok resp)
    (hsuf : HasSuffix resp.Ch (lit ".detail") = true)
    (htrade : HasSuffix resp.Ch (lit ".trade.detail") = false)
    (hmbp : Contains resp.Ch (lit "mbp.refresh") = false)
    (hkline : Contains resp.Ch (lit "kline") = false)
    (htk : env.unmarshalDetailResponse resp.Tick = .ok tk)
    (hf : ws.tickerCallback = some f) :
    ∃ t : Ticker, handle env ws msg = ⟨ws, [Event.tickerCall f t], .ret none⟩ ∧
      t.Pair = env.ParseCurrencyPairFromSpotWsCh resp.Ch ∧ t.Last = tk.Close ∧
      t.High = tk.High ∧ t.Low = tk.Low ∧ t.Vol = tk.Amount := by
  have hcl : classify resp.Ch = Kind.Ticker :=
    (classify_ticker_iff _).mpr ⟨hmbp, hkline, htrade, hsuf⟩
  exact ⟨_, handle_ticker env ws msg resp tk f hping hdec hcl htk hf, rfl, rfl, rfl, rfl, rfl⟩

/-- Witness for C11: the ticker envelope on `market.btcusdt.detail`. -/
theorem ticker_dispatched_witness :
    ∃ t : Ticker,
      handle (tickerEnv (lit "market.btcusdt.detail")) readyWs
          (envelopeBytes (lit "market.btcusdt.detail") (lit "1611162033214")
            sampleDetailTick) = ⟨readyWs, [Event.tickerCall 2 t], .ret none⟩ ∧
      t.Pair = ⟨lit "btc", lit "usdt"⟩ ∧ t.Last = ⟨4653473749489386783⟩ ∧
      t.High = ⟨4653476256375898112⟩ ∧ t.Low = ⟨4653434474934042624⟩ ∧
      t.Vol = ⟨4622100592565682176⟩ :=
  ticker_dispatched (tickerEnv (lit "market.btcusdt.detail")) readyWs
    (envelopeBytes (lit "market.btcusdt.detail") (lit "1611162033214") sampleDetailTick)
    ⟨lit "market.btcusdt.detail", 1611162033214, sampleDetailTick⟩ sampleDetailResponse 2
    (by decide) (by decide) (by decide) (by decide) (by decide) (by decide) (by decide)
    (by decide)

theorem handle_unknown (env : Env) (ws : SpotWs) (c : WsConn) (msg : List Byte)
    (resp : WsResponse)
    (hping : Contains msg (lit "ping") = false)
    (hdec : env.unmarshalWsResponse msg = .ok resp)
    (hcl : classify resp.Ch = Kind.Unknown) (hc : ws.wsConn = some c) :
    handle env ws msg = ⟨ws, [Event.logErrorf c.WsUrl msg], .ret none⟩ := by
  unfold classify at hcl
  split_ifs at hcl with h1 h2 h3 h4
  simp [handle, hping, hdec, h1, h2, h3, h4, hc]

/-- C12: for a decoded envelope whose channel name contains neither `mbp.refresh` nor `kline`
and does not end with `.detail`, in a frame without `ping` handed to handle on a built
connection, handle logs the frame, invokes no callback, leaves the connection as it was
(nothing is sent) and returns nil. -/
theorem unknown_channel_ignored (env : Env) (ws : SpotWs) (c : WsConn) (msg : List Byte)
    (resp : WsResponse)
    (hping : Contains msg (lit "ping") = false)
    (hdec : env.unmarshalWsResponse msg = .ok resp)
    (hmbp : Contains resp.Ch (lit "mbp.refresh") = false)
    (hkline : Contains resp.Ch (lit "kline") = false)
    (hsuf : HasSuffix resp.Ch (lit ".detail") = false)
    (hc : ws.wsConn = some c) :
    handle env ws msg = ⟨ws, [Event.logErrorf c.WsUrl msg], .ret none⟩ ∧
    (∀ e ∈ (handle env ws msg).events, e.callbackKind = none) ∧
    (handle env ws msg).ws.wsConn = some c := by
  have htrade : HasSuffix resp.Ch (lit ".trade.detail") = false := by
    cases h : HasSuffix resp.Ch (lit ".trade.detail") with
    | false => rfl
    | true => rw [trade_detail_suffix _ h] at hsuf; cases hsuf
  have hcl : classify resp.Ch = Kind.Unknown := by
    simp [classify, hmbp, hkline, htrade, hsuf]
  have h := handle_unknown env ws c msg resp hping hdec hcl hc
  refine ⟨h, ?_, ?_⟩
  · rw [h]
    intro e he
    simp only [List.mem_singleton] at he
    subst he
    rfl
  · rw [h]
    exact hc

/-- Witness for C12: the envelope on `market.btcusdt.bbo` is logged and dropped. -/
theorem unknown_channel_ignored_witness :
    handle (tickerEnv (lit "market.btcusdt.bbo")) readyWs
        (envelopeBytes (lit "market.btcusdt.bbo") (lit "1611162033214") sampleDetailTick) =
      ⟨readyWs,
        [Event.logErrorf wsUrl
          (envelopeBytes (lit "market.btcusdt.bbo") (lit "1611162033214") sampleDetailTick)],
        .ret none⟩ :=
  (unknown_channel_ignored (tickerEnv (lit "market.btcusdt.bbo")) readyWs Build
    (envelopeBytes (lit "market.btcusdt.bbo") (lit "1611162033214") sampleDetailTick)
    ⟨lit "market.btcusdt.bbo", 1611162033214, sampleDetailTick⟩
    (by decide) (by decide) (by decide) (by decide) (by decide) (by decide)).1

/-! ### Decode errors -/

/-- A decode error drops the frame: handle returns the error of the envelope decoder, or of
the payload decoder of the kind the chain selects, and invokes no callback; for a candle frame
this needs the channel name to have a 4th dot-separated segment. -/
theorem decode_error_drops_frame (env : Env) (ws : SpotWs) (msg : List Byte) (err : GoError)
    (hping : Contains msg (lit "ping") = false) :
    (env.unmarshalWsResponse msg = .error err →
      handle env ws msg = ⟨ws, [], .ret (some err)⟩) ∧
    (∀ resp, env.unmarshalWsResponse msg = .ok resp →
      (classify resp.Ch = Kind.Depth → env.unmarshalDepthResponse resp.Tick = .error err →
        handle env ws msg = ⟨ws, [], .ret (some err)⟩) ∧
      (classify resp.Ch = Kind.Candle → env.unmarshalKlineResponse resp.Tick = .error err →
        (Split resp.Ch (lit "."))[3]?.isSome = true →
        handle env ws msg = ⟨ws, [], .ret (some err)⟩) ∧
      (classify resp.Ch = Kind.Trade →
        env.unmarshalSpotTradeResponse resp.Tick = .error err →
        handle env ws msg = ⟨ws, [Event.println err], .ret (some err)⟩) ∧
      (classify resp.Ch = Kind.Ticker → env.unmarshalDetailResponse resp.Tick = .error err →
        handle env ws msg = ⟨ws, [], .ret (some err)⟩)) := by
  refine ⟨fun h => by simp [handle, hping, h], fun resp hdec => ⟨?_, ?_, ?_, ?_⟩⟩
  · intro hcl hd
    have hmbp : Contains resp.Ch (lit "mbp.refresh") = true := by
      unfold classify at hcl
      split_ifs at hcl
      assumption
    simp [handle, hping, hdec, hmbp, hd]
  · intro hcl hd hseg
    obtain ⟨hmbp, hkline⟩ := (classify_candle_iff _).mp hcl
    obtain ⟨t, ht⟩ := Option.isSome_iff_exists.mp hseg
    simp [handle, hping, hdec, hmbp, hkline, hd, ht]
  · intro hcl hd
    obtain ⟨hmbp, hkline, hsuf⟩ := (classify_trade_iff _).mp hcl
    simp [handle, hping, hdec, hmbp, hkline, hsuf, hd]
  · intro hcl hd
    obtain ⟨hmbp, hkline, htrade, hsuf⟩ := (classify_ticker_iff _).mp hcl
    simp [handle, hping, hdec, hmbp, hkline, htrade, hsuf, hd]

/-- An error returned by handle is a decode error: of the envelope, or of the payload of the
kind the chain selects. -/
theorem handle_error_is_decode_error (env : Env) (ws : SpotWs) (msg : List Byte)
    (err : GoError) (h : (handle env ws msg).out = .ret (some err)) :
    env.unmarshalWsResponse msg = .error err ∨
    ∃ resp, env.unmarshalWsResponse msg = .ok resp ∧
      ((classify resp.Ch = Kind.Depth ∧ env.unmarshalDepthResponse resp.Tick = .error err) ∨
       (classify resp.Ch = Kind.Candle ∧ env.unmarshalKlineResponse resp.Tick = .error err) ∨
       (classify resp.Ch = Kind.Trade ∧
          env.unmarshalSpotTradeResponse resp.Tick = .error err) ∨
       (classify resp.Ch = Kind.Ticker ∧
          env.unmarshalDetailResponse resp.Tick = .error err)) := by
  cases hping : Contains msg (lit "ping") with
  | true =>
    unfold handle at h
    simp only [hping, if_true] at h
    split at h <;> simp at h
  | false =>
    cases hdec : env.unmarshalWsResponse msg with
    | error e =>
      left
      simp [handle, hping, hdec] at h
      rw [h]
    | ok resp =>
      right
      refine ⟨resp, rfl, ?_⟩
      unfold handle at h
      simp only [hping, hdec, Bool.false_eq_true, if_false] at h
      unfold classify
      split_ifs at h ⊢
      · left
        cases hd : env.unmarshalDepthResponse resp.Tick with
        | error e => simp [hd] at h; simp [h]
        | ok d => simp only [hd] at h; split at h <;> simp at h
      · right; left
        split at h
        · simp at h
        · cases hd : env.unmarshalKlineResponse resp.Tick with
          | error e => simp [hd] at h; simp [h]
          | ok d => simp only [hd] at h; split at h <;> simp at h
      · right; right; left
        cases hd : env.unmarshalSpotTradeResponse resp.Tick with
        | error e => simp [hd] at h; simp [h]
        | ok d =>
          simp only [hd] at h
          cases hcb : ws.tradeCallback with
          | none =>
            cases hps : parseTrade env d with
            | nil => simp [hcb, hps, tradeLoop] at h
            | cons v rest => simp [hcb, hps, tradeLoop] at h
          | some f => simp [hcb, tradeLoop_some] at h
      · right; right; right
        cases hd : env.unmarshalDetailResponse resp.Tick with
        | error e => simp [hd] at h; simp [h]
        | ok d => simp only [hd] at h; split at h <;> simp at h
      · split at h <;> simp at h

/-- C13 (defect in the code, the one of C6): the envelope on `market.klineusdt.detail` with
the payload `[]` is classified Candle and its payload does not decode as a KlineResponse, yet
handle does not return the decode error: it panics on the index 3 of the 3 segments of the
channel name before the payload is decoded. -/
theorem kline_decode_error_panics :
    classify (lit "market.klineusdt.detail") = Kind.Candle ∧
    (sampleEnv [(envelopeBytes (lit "market.klineusdt.detail") (lit "1611162033214") (lit "[]"),
          ⟨lit "market.klineusdt.detail", 1611162033214, lit "[]"⟩)] [] [] [] []
      ).unmarshalKlineResponse (lit "[]") = .error ⟨"invalid character"⟩ ∧
    handle
        (sampleEnv
          [(envelopeBytes (lit "market.klineusdt.detail") (lit "1611162033214") (lit "[]"),
            ⟨lit "market.klineusdt.detail", 1611162033214, lit "[]"⟩)] [] [] [] [])
        readyWs
        (envelopeBytes (lit "market.klineusdt.detail") (lit "1611162033214") (lit "[]")) =
      ⟨readyWs, [], .panic (.indexOutOfRange 3 3)⟩ := by
  decide

/-! ### Subscribe frames and the connection -/

theorem SubscribeDepth_eq (env : Env) (ws : SpotWs) (pair : CurrencyPair) :
    SubscribeDepth env ws pair =
      if ws.depthCallback.isNone then
        ⟨ws, [], .ret (some ⟨"please set depth callback func"⟩)⟩
      else subscribe ws (depthFrame env pair) := rfl

theorem SubscribeTicker_eq (env : Env) (ws : SpotWs) (pair : CurrencyPair) :
    SubscribeTicker env ws pair =
      if ws.tickerCallback.isNone then
        ⟨ws, [], .ret (some ⟨"please set ticker call back func"⟩)⟩
      else subscribe ws (tickerFrame env pair) := rfl

theorem SubscribeTrade_eq (env : Env) (ws : SpotWs) (pair : CurrencyPair) :
    SubscribeTrade env ws pair =
      if ws.tickerCallback.isNone then
        ⟨ws, [], .ret (some ⟨"please set ticker call back func"⟩)⟩
      else subscribe ws (tradeFrame env pair) := rfl

theorem SubscribeCandle_eq (env : Env) (ws : SpotWs) (pair : CurrencyPair)
    (period : KlinePeriod) :
    SubscribeCandle env ws pair period =
      if ws.candleCallback.isNone then
        ⟨ws, [], .ret (some ⟨"please set candle call back func"⟩)⟩
      else subscribe ws (candleFrame env pair period) := rfl

theorem subscribe_built (ws : SpotWs) (c : WsConn) (sub : SubFrame)
    (hd : ws.onceDone = true) (hc : ws.wsConn = some c) :
    subscribe ws sub =
      ⟨{ ws with wsConn := some { c with subs := c.subs ++ [sub] } }, [], .ret none⟩ := by
  simp [subscribe, connectWs, hd, hc, WsConn.Subscribe]

theorem subscribe_new (ws : SpotWs) (sub : SubFrame) (hd : ws.onceDone = false) :
    subscribe ws sub =
      ⟨{ ws with onceDone := true, builds := ws.builds + 1,
                 wsConn := some { Build with subs := [sub] } }, [], .ret none⟩ := by
  simp [subscribe, connectWs, hd, WsConn.Subscribe, Build]

/-- C14: with the candle callback registered, SubscribeCandle returns nil and passes to the
connection (the stored one, or the one it builds when none was built) exactly one frame, with
id `spot.candle` and sub `market.<symbol>.kline.<t>`, where `t` is the table's token for the
period if the table has one and `1min` otherwise. -/
theorem SubscribeCandle_frame (env : Env) (ws : SpotWs) (pair : CurrencyPair)
    (period : KlinePeriod) (f : Fn) (hf : ws.candleCallback = some f) :
    (∀ c, ws.onceDone = true → ws.wsConn = some c →
      SubscribeCandle env ws pair period =
        ⟨{ ws with wsConn := some { c with subs := c.subs ++
            [⟨lit "spot.candle",
              lit "market." ++ env.lowerSymbol pair ++ lit ".kline." ++
                (mapLookup env.INERNAL_KLINE_PERIOD_CONVERTER period).getD (lit "1min")⟩] } },
          [], .ret none⟩) ∧
    (ws.onceDone = false →
      SubscribeCandle env ws pair period =
        ⟨{ ws with onceDone := true, builds := ws.builds + 1,
                   wsConn := some { Build with subs :=
            [⟨lit "spot.candle",
              lit "market." ++ env.lowerSymbol pair ++ lit ".kline." ++
                (mapLookup env.INERNAL_KLINE_PERIOD_CONVERTER period).getD (lit "1min")⟩] } },
          [], .ret none⟩) := by
  have ht : candleToken env period =
      (mapLookup env.INERNAL_KLINE_PERIOD_CONVERTER period).getD (lit "1min") := by
    unfold candleToken
    cases mapLookup env.INERNAL_KLINE_PERIOD_CONVERTER period <;> rfl
  have hfr : candleFrame env pair period =
      ⟨lit "spot.candle", lit "market." ++ env.lowerSymbol pair ++ lit ".kline." ++
        (mapLookup env.INERNAL_KLINE_PERIOD_CONVERTER period).getD (lit "1min")⟩ := by
    simp [candleFrame, ht]
  constructor
  · intro c hd hc
    rw [SubscribeCandle_eq, ← hfr, ← subscribe_built ws c _ hd hc]
    simp [hf]
  · intro hd
    rw [SubscribeCandle_eq, ← hfr, ← subscribe_new ws _ hd]
    simp [hf]

/-- Witness for C14: on a new client with the candle callback registered, SubscribeCandle of
btc/usdt with period 3 builds the connection and passes `market.btcusdt.kline.5min`; with the
period 2, which the sample table does not have, it passes `market.btcusdt.kline.1min`. -/
theorem SubscribeCandle_frame_witness :
    (SubscribeCandle (sampleEnv [] [] [] [] []) (CandleCallback NewSpotWs (some 1))
        ⟨lit "btc", lit "usdt"⟩ 3).ws.wsConn =
      some { WsUrl := wsUrl, subs := [⟨lit "spot.candle", lit "market.btcusdt.kline.5min"⟩],
             sent := [] } ∧
    (SubscribeCandle (sampleEnv [] [] [] [] []) (CandleCallback NewSpotWs (some 1))
        ⟨lit "btc", lit "usdt"⟩ 2).ws.wsConn =
      some { WsUrl := wsUrl, subs := [⟨lit "spot.candle", lit "market.btcusdt.kline.1min"⟩],
             sent := [] } := by
  constructor
  · rw [(SubscribeCandle_frame (sampleEnv [] [] [] [] []) (CandleCallback NewSpotWs (some 1))
      ⟨lit "btc", lit "usdt"⟩ 3 1 (by decide)).2 (by decide)]
    decide
  · rw [(SubscribeCandle_frame (sampleEnv [] [] [] [] []) (CandleCallback NewSpotWs (some 1))
      ⟨lit "btc", lit "usdt"⟩ 2 1 (by decide)).2 (by decide)]
    decide

/-! ### Sequences of calls -/

theorem apply_built (env : Env) (ws : SpotWs) (c : WsConn) (call : Call)
    (hd : ws.onceDone = true) (hb : ws.builds = 1) (hc : ws.wsConn = some c) :
    (call.apply env ws).ws.onceDone = true ∧ (call.apply env ws).ws.builds = 1 ∧
    (call.apply env ws).ws.wsConn =
      some { c with subs := c.subs ++ issued env ws [call] } := by
  cases call with
  | DepthCallback call => simp [Call.apply, DepthCallback, issued, Call.frame, hd, hb, hc]
  | TickerCallback call => simp [Call.apply, TickerCallback, issued, Call.frame, hd, hb, hc]
  | TradeCallback call => simp [Call.apply, TradeCallback, issued, Call.frame, hd, hb, hc]
  | CandleCallback call => simp [Call.apply, CandleCallback, issued, Call.frame, hd, hb, hc]
  | SubscribeDepth pair =>
    cases hcb : ws.depthCallback <;>
      simp [Call.apply, issued, Call.frame, SubscribeDepth_eq, hcb, subscribe_built _ c _ hd hc,
        hd, hb, hc]
  | SubscribeTicker pair =>
    cases hcb : ws.tickerCallback <;>
      simp [Call.apply, issued, Call.frame, SubscribeTicker_eq, hcb,
        subscribe_built _ c _ hd hc, hd, hb, hc]
  | SubscribeTrade pair =>
    cases hcb : ws.tickerCallback <;>
      simp [Call.apply, issued, Call.frame, SubscribeTrade_eq, hcb, subscribe_built _ c _ hd hc,
        hd, hb, hc]
  | SubscribeCandle pair period =>
    cases hcb : ws.candleCallback <;>
      simp [Call.apply, issued, Call.frame, SubscribeCandle_eq, hcb,
        subscribe_built _ c _ hd hc, hd, hb, hc]

theorem run_built (env : Env) (cs : List Call) :
    ∀ (ws : SpotWs) (c : WsConn), ws.onceDone = true → ws.builds = 1 → ws.wsConn = some c →
      (run env ws cs).onceDone = true ∧ (run env ws cs).builds = 1 ∧
      (run env ws cs).wsConn = some { c with subs := c.subs ++ issued env ws cs } := by
  induction cs with
  | nil => intro ws c hd hb hc; simp [run, issued, hd, hb, hc]
  | cons call cs ih =>
    intro ws c hd hb hc
    obtain ⟨h1, h2, h3⟩ := apply_built env ws c call hd hb hc
    obtain ⟨k1, k2, k3⟩ := ih _ _ h1 h2 h3
    refine ⟨k1, k2, ?_⟩
    rw [run, k3]
    have e : issued env ws (call :: cs) =
        issued env ws [call] ++ issued env (call.apply env ws).ws cs := by
      simp [issued]
    simp [e]

theorem apply_new (env : Env) (ws : SpotWs) (call : Call)
    (hd : ws.onceDone = false) (hb : ws.builds = 0) (hc : ws.wsConn = none) :
    (issued env ws [call] = [] ∧ (call.apply env ws).ws.onceDone = false ∧
      (call.apply env ws).ws.builds = 0 ∧ (call.apply env ws).ws.wsConn = none) ∨
    (∃ f, issued env ws [call] = [f] ∧ (call.apply env ws).ws.onceDone = true ∧
      (call.apply env ws).ws.builds = 1 ∧
      (call.apply env ws).ws.wsConn = some { Build with subs := [f] }) := by
  cases call with
  | DepthCallback call => simp [Call.apply, DepthCallback, issued, Call.frame, hd, hb, hc]
  | TickerCallback call => simp [Call.apply, TickerCallback, issued, Call.frame, hd, hb, hc]
  | TradeCallback call => simp [Call.apply, TradeCallback, issued, Call.frame, hd, hb, hc]
  | CandleCallback call => simp [Call.apply, CandleCallback, issued, Call.frame, hd, hb, hc]
  | SubscribeDepth pair =>
    cases hcb : ws.depthCallback <;>
      simp [Call.apply, issued, Call.frame, SubscribeDepth_eq, hcb, subscribe_new _ _ hd,
        hd, hb, hc]
  | SubscribeTicker pair =>
    cases hcb : ws.tickerCallback <;>
      simp [Call.apply, issued, Call.frame, SubscribeTicker_eq, hcb, subscribe_new _ _ hd,
        hd, hb, hc]
  | SubscribeTrade pair =>
    cases hcb : ws.tickerCallback <;>
      simp [Call.apply, issued, Call.frame, SubscribeTrade_eq, hcb, subscribe_new _ _ hd,
        hd, hb, hc]
  | SubscribeCandle pair period =>
    cases hcb : ws.candleCallback <;>
      simp [Call.apply, issued, Call.frame, SubscribeCandle_eq, hcb, subscribe_new _ _ hd,
        hd, hb, hc]

theorem run_new (env : Env) (cs : List Call) :
    ∀ ws : SpotWs, ws.onceDone = false → ws.builds = 0 → ws.wsConn = none →
      (issued env ws cs = [] ∧ (run env ws cs).onceDone = false ∧
        (run env ws cs).builds = 0 ∧ (run env ws cs).wsConn = none) ∨
      (issued env ws cs ≠ [] ∧ (run env ws cs).onceDone = true ∧
        (run env ws cs).builds = 1 ∧
        (run env ws cs).wsConn = some { Build with subs := issued env ws cs }) := by
  induction cs with
  | nil => intro ws hd hb hc; simp [run, issued, hd, hb, hc]
  | cons call cs ih =>
    intro ws hd hb hc
    have e : issued env ws (call :: cs) =
        issued env ws [call] ++ issued env (call.apply env ws).ws cs := by
      simp [issued]
    rcases apply_new env ws call hd hb hc with ⟨h0, h1, h2, h3⟩ | ⟨f, h0, h1, h2, h3⟩
    · rw [e, h0, run]
      simpa using ih _ h1 h2 h3
    · right
      obtain ⟨k1, k2, k3⟩ := run_built env cs _ _ h1 h2 h3
      rw [e, h0, run]
      refine ⟨by simp, k1, k2, ?_⟩
      rw [k3]

/-- C15: connect is idempotent.  After every sequence of registrations and Subscribe calls on
a new client the connection has been built at most once.  It has been built exactly when some
Subscribe call passed its callback check and issued a frame; from then on connectWs is a no-op
and the stored connection is the one built then, holding every frame issued, in call order. -/
theorem connect_once (env : Env) (cs : List Call) :
    (run env NewSpotWs cs).builds ≤ 1 ∧
    (issued env NewSpotWs cs = [] →
      (run env NewSpotWs cs).builds = 0 ∧ (run env NewSpotWs cs).wsConn = none) ∧
    (issued env NewSpotWs cs ≠ [] →
      (run env NewSpotWs cs).builds = 1 ∧
      connectWs (run env NewSpotWs cs) = run env NewSpotWs cs ∧
      (run env NewSpotWs cs).wsConn =
        some { WsUrl := wsUrl, subs := issued env NewSpotWs cs, sent := [] } ∧
      ∀ call : Call,
        (call.apply env (run env NewSpotWs cs)).ws.builds = 1 ∧
        (call.apply env (run env NewSpotWs cs)).ws.wsConn =
          some { WsUrl := wsUrl,
                 subs := issued env NewSpotWs cs ++ issued env (run env NewSpotWs cs) [call],
                 sent := [] }) := by
  rcases run_new env cs NewSpotWs rfl rfl rfl with ⟨h0, h1, h2, h3⟩ | ⟨h0, h1, h2, h3⟩
  · refine ⟨by omega, fun _ => ⟨h2, h3⟩, fun h => absurd h0 h⟩
  · refine ⟨by omega, fun h => absurd h h0, fun _ => ⟨h2, ?_, ?_, ?_⟩⟩
    · simp [connectWs, h1]
    · rw [h3]; rfl
    · intro call
      obtain ⟨k1, k2, k3⟩ := apply_built env _ _ call h1 h2 h3
      exact ⟨k2, by rw [k3]; rfl⟩

/-- Witness for C15: a failed SubscribeDepth, then two successful subscriptions and a failed
SubscribeTrade: one build, and the connection holds the two frames in call order. -/
theorem connect_once_witness :
    (run (sampleEnv [] [] [] [] []) NewSpotWs
      [Call.SubscribeDepth ⟨lit "btc", lit "usdt"⟩, Call.DepthCallback (some 3),
       Call.SubscribeDepth ⟨lit "btc", lit "usdt"⟩, Call.CandleCallback (some 1),
       Call.SubscribeCandle ⟨lit "eth", lit "usdt"⟩ 3,
       Call.SubscribeTrade ⟨lit "btc", lit "usdt"⟩]).builds = 1 ∧
    (run (sampleEnv [] [] [] [] []) NewSpotWs
      [Call.SubscribeDepth ⟨lit "btc", lit "usdt"⟩, Call.DepthCallback (some 3),
       Call.SubscribeDepth ⟨lit "btc", lit "usdt"⟩, Call.CandleCallback (some 1),
       Call.SubscribeCandle ⟨lit "eth", lit "usdt"⟩ 3,
       Call.SubscribeTrade ⟨lit "btc", lit "usdt"⟩]).wsConn =
      some { WsUrl := wsUrl,
             subs := [⟨lit "spot.depth", lit "market.btcusdt.mbp.refresh.20"⟩,
                      ⟨lit "spot.candle", lit "market.ethusdt.kline.5min"⟩],
             sent := [] } := by
  have h := (connect_once (sampleEnv [] [] [] [] [])
      [Call.SubscribeDepth ⟨lit "btc", lit "usdt"⟩, Call.DepthCallback (some 3),
       Call.SubscribeDepth ⟨lit "btc", lit "usdt"⟩, Call.CandleCallback (some 1),
       Call.SubscribeCandle ⟨lit "eth", lit "usdt"⟩ 3,
       Call.SubscribeTrade ⟨lit "btc", lit "usdt"⟩]).2.2 (by decide)
  refine ⟨h.1, ?_⟩
  rw [h.2.2.1]
  decide

/-! ### Reconnection -/

/-- C16: when the connection is lost after a sequence of calls on a new client, the read
task first re-sends every subscription issued by those calls, in the order issued, and only
then hands the following inbound frames to handle. -/
theorem resubscribe_before_frames (env : Env) (cs : List Call) (post : List Input) :
    readLoop env (run env NewSpotWs cs) (Input.disconnect :: post) =
      (issued env NewSpotWs cs).map Step.resent ++
        readLoop env (run env NewSpotWs cs) post := by
  rcases run_new env cs NewSpotWs rfl rfl rfl with ⟨h0, _, _, h3⟩ | ⟨_, _, _, h3⟩
  · simp [readLoop, h0, h3]
  · simp [readLoop, h3, WsConn.replay]

/-! ### Registered callbacks -/

/-- C18 (defect in the code, the one of C1): a new client registers a non-nil ticker
callback and calls SubscribeTrade, which passes its check and issues the trade subscription
while the trade callback is nil; on the first trade frame with a print handle calls the nil
trade callback and panics. -/
theorem trade_subscribed_nil_callback_panics :
    (∀ c ∈ [Call.TickerCallback (some 2), Call.SubscribeTrade ⟨lit "btc", lit "usdt"⟩],
      c.nonNil = true) ∧
    issued (envFor (lit "market.btcusdt.trade.detail") (lit "1611162033214") 1611162033214)
        NewSpotWs [Call.TickerCallback (some 2), Call.SubscribeTrade ⟨lit "btc", lit "usdt"⟩] =
      [⟨lit "spot.trade", lit "market.btcusdt.trade.detail"⟩] ∧
    (run (envFor (lit "market.btcusdt.trade.detail") (lit "1611162033214") 1611162033214)
        NewSpotWs [Call.TickerCallback (some 2), Call.SubscribeTrade ⟨lit "btc", lit "usdt"⟩]
      ).tradeCallback = none ∧
    (handle (envFor (lit "market.btcusdt.trade.detail") (lit "1611162033214") 1611162033214)
        (run (envFor (lit "market.btcusdt.trade.detail") (lit "1611162033214") 1611162033214)
          NewSpotWs
          [Call.TickerCallback (some 2), Call.SubscribeTrade ⟨lit "btc", lit "usdt"⟩])
        (envelopeBytes (lit "market.btcusdt.trade.detail") (lit "1611162033214")
          sampleTradeTick)).out = .panic .nilDereference := by
  decide

theorem subscribe_callbacks (ws : SpotWs) (sub : SubFrame) :
    (subscribe ws sub).ws.depthCallback = ws.depthCallback ∧
    (subscribe ws sub).ws.tickerCallback = ws.tickerCallback ∧
    (subscribe ws sub).ws.candleCallback = ws.candleCallback ∧
    (subscribe ws sub).ws.tradeCallback = ws.tradeCallback := by
  obtain ⟨od, b, conn, c1, c2, c3, c4⟩ := ws
  cases od <;> cases conn <;> simp [subscribe, connectWs]

theorem apply_keeps_callbacks (env : Env) (ws : SpotWs) (call : Call)
    (hnn : call.nonNil = true) :
    (ws.depthCallback.isSome = true → (call.apply env ws).ws.depthCallback.isSome = true) ∧
    (ws.tickerCallback.isSome = true → (call.apply env ws).ws.tickerCallback.isSome = true) ∧
    (ws.candleCallback.isSome = true → (call.apply env ws).ws.candleCallback.isSome = true) := by
  cases call with
  | DepthCallback call => simp_all [Call.apply, DepthCallback, Call.nonNil]
  | TickerCallback call => simp_all [Call.apply, TickerCallback, Call.nonNil]
  | TradeCallback call => simp_all [Call.apply, TradeCallback, Call.nonNil]
  | CandleCallback call => simp_all [Call.apply, CandleCallback, Call.nonNil]
  | SubscribeDepth pair =>
    simp only [Call.apply, SubscribeDepth_eq]
    split <;> simp [subscribe_callbacks]
  | SubscribeTicker pair =>
    simp only [Call.apply, SubscribeTicker_eq]
    split <;> simp [subscribe_callbacks]
  | SubscribeTrade pair =>
    simp only [Call.apply, SubscribeTrade_eq]
    split <;> simp [subscribe_callbacks]
  | SubscribeCandle pair period =>
    simp only [Call.apply, SubscribeCandle_eq]
    split <;> simp [subscribe_callbacks]

theorem run_keeps_callbacks (env : Env) (cs : List Call) :
    ∀ ws : SpotWs, (∀ c ∈ cs, c.nonNil = true) →
      (ws.depthCallback.isSome = true → (run env ws cs).depthCallback.isSome = true) ∧
      (ws.tickerCallback.isSome = true → (run env ws cs).tickerCallback.isSome = true) ∧
      (ws.candleCallback.isSome = true → (run env ws cs).candleCallback.isSome = true) := by
  induction cs with
  | nil => intro ws _; simp [run]
  | cons call cs ih =>
    intro ws hnn
    obtain ⟨a1, a2, a3⟩ := apply_keeps_callbacks env ws call (hnn call (List.mem_cons_self _ _))
    obtain ⟨b1, b2, b3⟩ := ih (call.apply env ws).ws
      (fun c hc => hnn c (List.mem_cons_of_mem _ hc))
    exact ⟨fun h => b1 (a1 h), fun h => b2 (a2 h), fun h => b3 (a3 h)⟩

theorem issued_guard (env : Env) (ws : SpotWs) (call : Call) (f : SubFrame)
    (hf : f ∈ issued env ws [call]) :
    (f.id = lit "spot.depth" → ws.depthCallback.isSome = true) ∧
    (f.id = lit "spot.ticker" → ws.tickerCallback.isSome = true) ∧
    (f.id = lit "spot.candle" → ws.candleCallback.isSome = true) := by
  cases call with
  | DepthCallback call => simp [issued, Call.frame] at hf
  | TickerCallback call => simp [issued, Call.frame] at hf
  | TradeCallback call => simp [issued, Call.frame] at hf
  | CandleCallback call => simp [issued, Call.frame] at hf
  | SubscribeDepth pair =>
    cases hcb : ws.depthCallback with
    | none => simp [issued, Call.frame, Call.apply, SubscribeDepth_eq, hcb] at hf
    | some g =>
      simp only [issued, Call.frame, List.append_nil] at hf
      split at hf
      · simp only [List.mem_singleton] at hf
        rename_i heq _
        cases heq
        subst hf
        refine ⟨fun _ => rfl, fun h => ?_, fun h => ?_⟩
        · refine absurd h ?_
          simp only [depthFrame, tickerFrame, tradeFrame, candleFrame]
          decide
        · refine absurd h ?_
          simp only [depthFrame, tickerFrame, tradeFrame, candleFrame]
          decide
      · simp at hf
  | SubscribeTicker pair =>
    cases hcb : ws.tickerCallback with
    | none => simp [issued, Call.frame, Call.apply, SubscribeTicker_eq, hcb] at hf
    | some g =>
      simp only [issued, Call.frame, List.append_nil] at hf
      split at hf
      · simp only [List.mem_singleton] at hf
        rename_i heq _
        cases heq
        subst hf
        refine ⟨fun h => ?_, fun _ => rfl, fun h => ?_⟩
        · refine absurd h ?_
          simp only [depthFrame, tickerFrame, tradeFrame, candleFrame]
          decide
        · refine absurd h ?_
          simp only [depthFrame, tickerFrame, tradeFrame, candleFrame]
          decide
      · simp at hf
  | SubscribeTrade pair =>
    simp only [issued, Call.frame, List.append_nil] at hf
    split at hf
    · simp only [List.mem_singleton] at hf
      rename_i heq _
      cases heq
      subst hf
      refine ⟨fun h => ?_, fun h => ?_, fun h => ?_⟩
      · refine absurd h ?_
        simp only [depthFrame, tickerFrame, tradeFrame, candleFrame]
        decide
      · refine absurd h ?_
        simp only [depthFrame, tickerFrame, tradeFrame, candleFrame]
        decide
      · refine absurd h ?_
        simp only [depthFrame, tickerFrame, tradeFrame, candleFrame]
        decide
    · simp at hf
  | SubscribeCandle pair period =>
    cases hcb : ws.candleCallback with
    | none => simp [issued, Call.frame, Call.apply, SubscribeCandle_eq, hcb] at hf
    | some g =>
      simp only [issued, Call.frame, List.append_nil] at hf
      split at hf
      · simp only [List.mem_singleton] at hf
        rename_i heq _
        cases heq
        subst hf
        refine ⟨fun h => ?_, fun h => ?_, fun _ => rfl⟩
        · refine absurd h ?_
          simp only [depthFrame, tickerFrame, tradeFrame, candleFrame]
          decide
        · refine absurd h ?_
          simp only [depthFrame, tickerFrame, tradeFrame, candleFrame]
          decide
      · simp at hf

/-- For the depth, ticker and candle kinds the invariant holds: after a sequence of calls that
register only non-nil functions, a kind whose subscription was issued has its callback
registered. -/
theorem subscribed_callback_registered (env : Env) (cs : List Call) :
    ∀ ws : SpotWs, (∀ c ∈ cs, c.nonNil = true) → ∀ f ∈ issued env ws cs,
      (f.id = lit "spot.depth" → (run env ws cs).depthCallback.isSome = true) ∧
      (f.id = lit "spot.ticker" → (run env ws cs).tickerCallback.isSome = true) ∧
      (f.id = lit "spot.candle" → (run env ws cs).candleCallback.isSome = true) := by
  induction cs with
  | nil => intro ws _ f hf; simp [issued] at hf
  | cons call cs ih =>
    intro ws hnn f hf
    have e : issued env ws (call :: cs) =
        issued env ws [call] ++ issued env (call.apply env ws).ws cs := by
      simp [issued]
    rw [e, List.mem_append] at hf
    have hnn2 : ∀ c ∈ cs, c.nonNil = true := fun c hc => hnn c (List.mem_cons_of_mem _ hc)
    rcases hf with hf | hf
    · obtain ⟨g1, g2, g3⟩ := issued_guard env ws call f hf
      obtain ⟨a1, a2, a3⟩ :=
        apply_keeps_callbacks env ws call (hnn call (List.mem_cons_self _ _))
      obtain ⟨b1, b2, b3⟩ := run_keeps_callbacks env cs (call.apply env ws).ws hnn2
      exact ⟨fun h => b1 (a1 (g1 h)), fun h => b2 (a2 (g2 h)), fun h => b3 (a3 (g3 h))⟩
    · exact ih (call.apply env ws).ws hnn2 f hf

/-! ### Shape of the heartbeat reply -/

theorem ReplaceAll_ping_head (c : Byte) (u s : List Byte) (hc : c ≠ 112)
    (h : c :: u <+: ReplaceAll s (lit "ping") (lit "pong")) :
    ∃ s2, s = c :: s2 ∧ u <+: ReplaceAll s2 (lit "ping") (lit "pong") := by
  cases s with
  | nil => rw [ReplaceAll_ping_nil] at h; simp at h
  | cons d s2 =>
    by_cases hp : lit "ping" <+: d :: s2
    · obtain ⟨t, ht⟩ := hp
      rw [← ht, ReplaceAll_ping_match, lit_pong] at h
      simp only [List.cons_append, List.cons_prefix_cons] at h
      exact absurd h.1 hc
    · rw [ReplaceAll_ping_step d s2 hp, List.cons_prefix_cons] at h
      exact ⟨s2, by rw [h.1], h.2⟩

theorem ReplaceAll_ping_no_ping_aux (n : Nat) :
    ∀ msg : List Byte, msg.length ≤ n →
      ¬ lit "ping" <:+: ReplaceAll msg (lit "ping") (lit "pong") := by
  induction n with
  | zero =>
    intro msg hlen
    have : msg = [] := List.length_eq_zero.mp (Nat.le_zero.mp hlen)
    subst this
    rw [ReplaceAll_ping_nil, lit_ping]
    simp
  | succ n ih =>
    intro msg hlen
    by_cases hp : lit "ping" <+: msg
    · obtain ⟨t, rfl⟩ := hp
      have ht : t.length ≤ n := by
        simp [lit_ping] at hlen
        omega
      have := ih t ht
      rw [ReplaceAll_ping_match]
      simp only [lit_ping, lit_pong] at this ⊢
      simp [List.infix_cons_iff, this]
    · cases msg with
      | nil =>
        rw [ReplaceAll_ping_nil, lit_ping]
        simp
      | cons b rest =>
        have hrest := ih rest (by simpa using hlen)
        rw [ReplaceAll_ping_step b rest hp, List.infix_cons_iff]
        rintro (h | h)
        · rw [lit_ping, List.cons_prefix_cons] at h
          obtain ⟨hb, h⟩ := h
          obtain ⟨s1, e1, h⟩ := ReplaceAll_ping_head 105 _ _ (by decide) h
          obtain ⟨s2, e2, h⟩ := ReplaceAll_ping_head 110 _ _ (by decide) h
          obtain ⟨s3, e3, _⟩ := ReplaceAll_ping_head 103 _ _ (by decide) h
          apply hp
          rw [e1, e2, e3, ← hb, lit_ping]
          simp
        · exact hrest h

theorem ReplaceAll_ping_fixed (s : List Byte) (h : ¬ lit "ping" <:+: s) :
    ReplaceAll s (lit "ping") (lit "pong") = s := by
  induction s with
  | nil => exact ReplaceAll_ping_nil
  | cons b rest ih =>
    have hp : ¬ lit "ping" <+: b :: rest := fun hp => h hp.isInfix
    rw [ReplaceAll_ping_step b rest hp, ih (fun hr => h (List.infix_cons hr))]

theorem prefix_getElem? (p l : List Byte) (h : p <+: l) (j : Nat) (hj : j < p.length) :
    l[j]? = p[j]? := by
  obtain ⟨t, rfl⟩ := h
  exact List.getElem?_append_left hj

/-- C19: the reply handle sends for a frame containing `ping` has the length of the frame and
contains no `ping`; at the second byte of every `ping` of the frame it has `o` for `i`, and it
differs from the frame at no other byte; replacing again leaves it unchanged. -/
theorem heartbeat_reply_shape (env : Env) (ws : SpotWs) (c : WsConn) (msg : List Byte)
    (hping : Contains msg (lit "ping") = true) (hc : ws.wsConn = some c) :
    ∃ reply, (handle env ws msg).ws.wsConn = some { c with sent := c.sent ++ [reply] } ∧
      reply.length = msg.length ∧
      Contains reply (lit "ping") = false ∧
      (∀ i, lit "ping" <+: msg.drop i → msg[i + 1]? = some 105 ∧ reply[i + 1]? = some 111) ∧
      (∀ k, reply[k]? ≠ msg[k]? → ∃ i, k = i + 1 ∧ lit "ping" <+: msg.drop i) ∧
      ReplaceAll reply (lit "ping") (lit "pong") = reply := by
  obtain ⟨h1, h2, h3⟩ := ReplaceAll_ping_isPongReply msg
  have hno := ReplaceAll_ping_no_ping_aux msg.length msg (Nat.le_refl _)
  refine ⟨ReplaceAll msg (lit "ping") (lit "pong"), ?_, h1, ?_, ?_, ?_,
    ReplaceAll_ping_fixed _ hno⟩
  · rw [handle_ping env ws c msg hping hc]
  · cases hcon : Contains (ReplaceAll msg (lit "ping") (lit "pong")) (lit "ping") with
    | false => rfl
    | true => exact absurd ((Contains_iff _ _).mp hcon) hno
  · intro i hocc
    have hm := prefix_getElem? _ _ hocc 1 (by decide)
    rw [List.getElem?_drop] at hm
    refine ⟨by rw [hm]; decide, ?_⟩
    rw [h2 i hocc 1 (by decide)]
    decide
  · intro k hk
    by_contra hcov
    apply hk
    apply h3 k
    intro i hi1 hi2 hocc
    obtain ⟨j, rfl⟩ : ∃ j, k = i + j := ⟨k - i, by omega⟩
    have hj : j < 4 := by omega
    have hr := h2 i hocc j hj
    have hm := prefix_getElem? _ _ hocc j (by simpa [lit_ping] using hj)
    rw [List.getElem?_drop] at hm
    rcases j with _ | _ | _ | _ | j
    · exact hk (by rw [hr, hm]; decide)
    · exact hcov ⟨i, rfl, hocc⟩
    · exact hk (by rw [hr, hm]; decide)
    · exact hk (by rw [hr, hm]; decide)
    · omega

/-- Witness for C19: the frame `ping pingping` is answered by `pong pongpong`. -/
theorem heartbeat_reply_shape_witness :
    (∃ reply,
      (handle (sampleEnv [] [] [] [] []) readyWs (lit "ping pingping")).ws.wsConn =
        some { Build with sent := Build.sent ++ [reply] } ∧
      reply.length = (lit "ping pingping").length ∧
      Contains reply (lit "ping") = false ∧
      (∀ i, lit "ping" <+: (lit "ping pingping").drop i →
        (lit "ping pingping")[i + 1]? = some 105 ∧ reply[i + 1]? = some 111) ∧
      (∀ k, reply[k]? ≠ (lit "ping pingping")[k]? →
        ∃ i, k = i + 1 ∧ lit "ping" <+: (lit "ping pingping").drop i) ∧
      ReplaceAll reply (lit "ping") (lit "pong") = reply) ∧
    (handle (sampleEnv [] [] [] [] []) readyWs (lit "ping pingping")).ws.wsConn =
      some { Build with sent := [lit "pong pongpong"] } :=
  ⟨heartbeat_reply_shape (sampleEnv [] [] [] [] []) readyWs Build (lit "ping pingping")
    (by decide) (by decide), by decide⟩

/-! ### Visiting order of the period table -/

theorem infix_append_cases (p x y : List Byte) (h : p <:+: x ++ y) :
    p <:+: x ∨ p <:+: y ∨
      ∃ k, 0 < k ∧ k < p.length ∧ p.take k <:+ x ∧ p.drop k <+: y := by
  obtain ⟨s, t, hst⟩ := h
  rw [List.append_assoc] at hst
  rcases List.append_eq_append_iff.mp hst with ⟨a, hx, hy⟩ | ⟨c, hs, hy⟩
  · rcases List.append_eq_append_iff.mp hy with ⟨b, ha, ht⟩ | ⟨c, hp, hy2⟩
    · left
      exact ⟨s, b, by rw [hx, ha, List.append_assoc]⟩
    · by_cases ha : a = []
      · right; left
        subst ha
        exact ⟨[], t, by simp [hp, hy2]⟩
      · by_cases hc : c = []
        · left
          subst hc
          exact ⟨s, [], by simp [hx, hp]⟩
        · right; right
          refine ⟨a.length, List.length_pos.mpr ha, ?_, ?_, ?_⟩
          · rw [hp, List.length_append]
            have := List.length_pos.mpr hc
            omega
          · rw [hp, List.take_left]
            exact ⟨s, hx.symm⟩
          · rw [hp, List.drop_left]
            exact ⟨t, hy2.symm⟩
  · right; left
    exact ⟨c, t, by rw [hy, List.append_assoc]⟩

theorem infix_has_mem (p s : List Byte) (c : Byte) (h : p <:+: s) (hc : c ∈ p) : c ∈ s :=
  h.subset hc

theorem not_mem_dot (s : List Byte) (h : Contains s (lit ".") = false) : (46 : Byte) ∉ s := by
  intro hmem
  have : lit "." <:+: s := by
    obtain ⟨a, b, rfl⟩ := List.append_of_mem hmem
    have hl : lit "." = [46] := by decide
    exact ⟨a, b, by rw [hl]; simp⟩
  rw [(Contains_iff _ _).mpr this] at h
  cases h

theorem no_straddle_left (p x y : List Byte) (h : p <:+: x ++ y)
    (hx : ∀ k < p.length, 0 < k → ¬ p.take k <:+ x) : p <:+: x ∨ p <:+: y := by
  rcases infix_append_cases p x y h with h | h | ⟨k, h0, h1, h2, _⟩
  · exact Or.inl h
  · exact Or.inr h
  · exact absurd h2 (hx k h1 h0)

theorem no_straddle_right (p x y : List Byte) (h : p <:+: x ++ y)
    (hy : ∀ k < p.length, 0 < k → ¬ p.drop k <+: y) : p <:+: x ∨ p <:+: y := by
  rcases infix_append_cases p x y h with h | h | ⟨k, h0, h1, _, h3⟩
  · exact Or.inl h
  · exact Or.inr h
  · exact absurd h3 (hy k h1 h0)

theorem no_mbp_market_sym (sym : GoString) (hdot : (46 : Byte) ∉ sym) :
    ¬ lit "mbp.refresh" <:+: lit "market." ++ sym := by
  intro h
  rcases no_straddle_left _ _ _ h (by decide) with h | h
  · exact absurd h (by decide)
  · exact hdot (infix_has_mem _ _ 46 h (by decide))

theorem no_kline_market_sym (sym : GoString) (hk : ¬ lit "kline" <:+: sym) :
    ¬ lit "kline" <:+: lit "market." ++ sym := by
  intro h
  rcases no_straddle_left _ _ _ h (by decide) with h | h
  · exact absurd h (by decide)
  · exact hk h

theorem no_mbp_channel (sym y : GoString) (hdot : (46 : Byte) ∉ sym)
    (hy : ¬ lit "mbp.refresh" <:+: y)
    (hs : ∀ k < (lit "mbp.refresh").length, 0 < k → ¬ (lit "mbp.refresh").drop k <+: y) :
    ¬ lit "mbp.refresh" <:+: lit "market." ++ sym ++ y := by
  intro h
  rcases no_straddle_right _ _ _ h hs with h | h
  · exact no_mbp_market_sym sym hdot h
  · exact hy h

theorem no_kline_channel (sym y : GoString) (hk : ¬ lit "kline" <:+: sym)
    (hy : ¬ lit "kline" <:+: y)
    (hs : ∀ k < (lit "kline").length, 0 < k → ¬ (lit "kline").drop k <+: y) :
    ¬ lit "kline" <:+: lit "market." ++ sym ++ y := by
  intro h
  rcases no_straddle_right _ _ _ h hs with h | h
  · exact no_kline_market_sym sym hk h
  · exact hy h

theorem no_mbp_candle_channel (sym t : GoString) (hdot : (46 : Byte) ∉ sym)
    (ht : ¬ lit "mbp.refresh" <:+: t) :
    ¬ lit "mbp.refresh" <:+: lit "market." ++ sym ++ lit ".kline." ++ t := by
  intro h
  rcases infix_append_cases _ _ _ h with h | h | ⟨k, h0, h1, h2, _⟩
  · exact no_mbp_channel sym (lit ".kline.") hdot (by decide) (by decide) h
  · exact ht h
  · have h3 : lit ".kline." <:+ lit "market." ++ sym ++ lit ".kline." :=
      List.suffix_append _ _
    have hcheck : ∀ k < (lit "mbp.refresh").length, 0 < k →
        ¬ (lit "mbp.refresh").take k <:+ lit ".kline." ∧
        ¬ lit ".kline." <:+ (lit "mbp.refresh").take k := by decide
    rcases List.suffix_or_suffix_of_suffix h2 h3 with h4 | h4
    · exact (hcheck k h1 h0).1 h4
    · exact (hcheck k h1 h0).2 h4

theorem no_trade_suffix_ticker_channel (sym : GoString) (hdot : (46 : Byte) ∉ sym)
    (htrade : sym ≠ lit "trade") :
    ¬ lit ".trade.detail" <:+ lit "market." ++ sym ++ lit ".detail" := by
  rintro ⟨u, hu⟩
  have e : lit ".trade.detail" = lit ".trade" ++ lit ".detail" := by decide
  rw [e, ← List.append_assoc] at hu
  have h1 : lit ".trade" <:+ lit "market." ++ sym := ⟨u, List.append_cancel_right hu⟩
  have h2 : sym <:+ lit "market." ++ sym := List.suffix_append _ _
  rcases List.suffix_or_suffix_of_suffix h1 h2 with h3 | h3
  · exact hdot (h3.subset (by decide))
  · have hall : ∀ s ∈ (lit ".trade").tails, (46 : Byte) ∉ s → s ≠ lit "trade" →
        ¬ lit ".trade" <:+ lit "market." ++ s := by decide
    exact hall sym ((List.mem_tails _ _).mpr h3) hdot htrade h1

theorem Contains_false_iff (s sub : List Byte) : Contains s sub = false ↔ ¬ sub <:+: s := by
  rw [← Contains_iff]
  cases Contains s sub <;> simp

theorem classify_candle_channel (sym t : GoString) (hdot : (46 : Byte) ∉ sym)
    (ht : Contains t (lit "mbp.refresh") = false) :
    classify (lit "market." ++ sym ++ lit ".kline." ++ t) = Kind.Candle := by
  rw [classify_candle_iff]
  constructor
  · rw [Contains_false_iff]
    exact no_mbp_candle_channel sym t hdot ((Contains_false_iff _ _).mp ht)
  · rw [Contains_iff]
    have e : lit ".kline." = lit "." ++ lit "kline" ++ lit "." := by decide
    exact ⟨lit "market." ++ sym ++ lit ".", lit "." ++ t, by rw [e]; simp⟩

/-- C17: for a symbol that contains no `.`, does not contain `kline` and is not `trade`, and a
period table none of whose tokens contains `mbp.refresh`, the channel names the four Subscribe
operations send are classified by the check chain of handle as Depth, Candle (for the token
of every period and for every table token), Trade and Ticker respectively. -/
theorem subscribe_classify_consistent (env : Env) (pair : CurrencyPair)
    (hdot : Contains (env.lowerSymbol pair) (lit ".") = false)
    (hkline : Contains (env.lowerSymbol pair) (lit "kline") = false)
    (htrade : env.lowerSymbol pair ≠ lit "trade")
    (htok : ∀ e ∈ env.INERNAL_KLINE_PERIOD_CONVERTER,
      Contains e.2 (lit "mbp.refresh") = false) :
    classify (depthFrame env pair).sub = Kind.Depth ∧
    (∀ period, classify (candleFrame env pair period).sub = Kind.Candle) ∧
    (∀ e ∈ env.INERNAL_KLINE_PERIOD_CONVERTER,
      classify (lit "market." ++ env.lowerSymbol pair ++ lit ".kline." ++ e.2) =
        Kind.Candle) ∧
    classify (tradeFrame env pair).sub = Kind.Trade ∧
    classify (tickerFrame env pair).sub = Kind.Ticker := by
  have hd := not_mem_dot _ hdot
  have hk := (Contains_false_iff _ _).mp hkline
  refine ⟨?_, ?_, ?_, ?_, ?_⟩
  · have h : Contains (depthFrame env pair).sub (lit "mbp.refresh") = true := by
      rw [Contains_iff]
      have e : lit ".mbp.refresh.20" = lit "." ++ lit "mbp.refresh" ++ lit ".20" := by decide
      exact ⟨lit "market." ++ env.lowerSymbol pair ++ lit ".", lit ".20", by
        simp [depthFrame, e]⟩
    simp [classify, h]
  · intro period
    have ht : Contains (candleToken env period) (lit "mbp.refresh") = false := by
      unfold candleToken
      cases hl : mapLookup env.INERNAL_KLINE_PERIOD_CONVERTER period with
      | none => decide
      | some t => exact htok _ (mapLookup_mem _ _ _ hl)
    exact classify_candle_channel _ _ hd ht
  · intro e he
    exact classify_candle_channel _ _ hd (htok e he)
  · rw [classify_trade_iff]
    refine ⟨?_, ?_, ?_⟩
    · rw [Contains_false_iff]
      exact no_mbp_channel _ _ hd (by decide) (by decide)
    · rw [Contains_false_iff]
      exact no_kline_channel _ _ hk (by decide) (by decide)
    · rw [HasSuffix_iff]
      exact List.suffix_append _ _
  · rw [classify_ticker_iff]
    refine ⟨?_, ?_, ?_, ?_⟩
    · rw [Contains_false_iff]
      exact no_mbp_channel _ _ hd (by decide) (by decide)
    · rw [Contains_false_iff]
      exact no_kline_channel _ _ hk (by decide) (by decide)
    · cases h : HasSuffix (tickerFrame env pair).sub (lit ".trade.detail") with
      | false => rfl
      | true =>
        exact absurd ((HasSuffix_iff _ _).mp h)
          (no_trade_suffix_ticker_channel _ hd htrade)
    · rw [HasSuffix_iff]
      exact List.suffix_append _ _

/-- Witness for C17: the pair btc/usdt with the sample table; the channel names sent for
depth, candles of period 3, trades and ticker are classified Depth, Candle, Trade, Ticker. -/
theorem subscribe_classify_consistent_witness :
    classify (lit "market.btcusdt.mbp.refresh.20") = Kind.Depth ∧
    classify (lit "market.btcusdt.kline.5min") = Kind.Candle ∧
    classify (lit "market.btcusdt.trade.detail") = Kind.Trade ∧
    classify (lit "market.btcusdt.detail") = Kind.Ticker := by
  have h := subscribe_classify_consistent (sampleEnv [] [] [] [] []) ⟨lit "btc", lit "usdt"⟩
    (by decide) (by decide) (by decide) (by decide)
  have e1 : (depthFrame (sampleEnv [] [] [] [] []) ⟨lit "btc", lit "usdt"⟩).sub =
      lit "market.btcusdt.mbp.refresh.20" := by decide
  have e2 : (candleFrame (sampleEnv [] [] [] [] []) ⟨lit "btc", lit "usdt"⟩ 3).sub =
      lit "market.btcusdt.kline.5min" := by decide
  have e3 : (tradeFrame (sampleEnv [] [] [] [] []) ⟨lit "btc", lit "usdt"⟩).sub =
      lit "market.btcusdt.trade.detail" := by decide
  have e4 : (tickerFrame (sampleEnv [] [] [] [] []) ⟨lit "btc", lit "usdt"⟩).sub =
      lit "market.btcusdt.detail" := by decide
  exact ⟨e1 ▸ h.1, e2 ▸ h.2.1 3, e3 ▸ h.2.2.2.1, e4 ▸ h.2.2.2.2⟩

end Huobi
